import Mathlib


/-! ### Part 1: definitions -/

/-!
# Verification of the NAT outbound handler (proxy/nat)

Shallow embedding of the bidirectional NAT outbound handler
(`proxy/nat/nat.go`, `proxy/nat/config.go`) together with proofs that
settle the frozen claims about its rule engine, its embedded-IPv4
decoder, its port mapping, and its session table.

Conventions:
* Go strings are modelled as `String`, with the character-level work done
  on `List Char`; Go's `strings.Split`, `strings.Contains`,
  `strings.HasPrefix`/`HasSuffix`/`Trim` and `strconv.ParseInt` are given
  explicit structural models below.
* `net.Destination` is used by the handler only through
  `destination.Address.String()`, `.Port` and `.Network.String()`, so a
  destination is modelled by those three projections.
* Machine integers (`int64`, `uint32`) are modelled as `Int`/`Nat`; all
  values in play stay far away from the 64-bit boundary, and the Go code
  never relies on wrap-around.
* `time.Time`/`time.Duration` are modelled as an `Int` count of
  nanoseconds, mirroring `time.Duration` arithmetic.
-/

/-! ## Character-level models of the `strings` and `strconv` primitives -/

/-- Model of Go `strings.Split(s, sep)` for a single-character separator:
scan left to right, cutting at every occurrence of `c`.  `acc` holds the
current field in reverse. -/
def splitChAux (c : Char) (acc : List Char) : List Char → List (List Char)
  | [] => [acc.reverse]
  | x :: xs => if x = c then acc.reverse :: splitChAux c [] xs else splitChAux c (x :: acc) xs

/-- `strings.Split(s, c)` for one-character `c`. -/
def splitCh (c : Char) (l : List Char) : List (List Char) := splitChAux c [] l

/-- Model of Go `strings.Split(s, "::")`: scan left to right, cutting at
every (non-overlapping) occurrence of two consecutive colons. -/
def splitCC (acc : List Char) : List Char → List (List Char)
  | [] => [acc.reverse]
  | [x] => [(x :: acc).reverse]
  | x :: y :: xs =>
    if x = ':' ∧ y = ':' then acc.reverse :: splitCC [] xs
    else splitCC (x :: acc) (y :: xs)

/-- Model of Go `strings.Contains(s, pat)`: some suffix of `l` starts with
`pat`. -/
def containsStr (pat : List Char) : List Char → Bool
  | [] => pat.isEmpty
  | x :: xs => pat.isPrefixOf (x :: xs) || containsStr pat xs

/-- Model of Go `strings.Trim(s, cutset)`: drop characters of the cutset
from both ends. -/
def trimSet (cutset : List Char) (l : List Char) : List Char :=
  ((l.dropWhile (fun c => cutset.contains c)).reverse.dropWhile
    (fun c => cutset.contains c)).reverse

/-- Value of one hexadecimal digit, as accepted by `strconv.ParseInt`
with base 16. -/
def hexVal (c : Char) : Option Nat :=
  if 48 ≤ c.toNat ∧ c.toNat ≤ 57 then some (c.toNat - 48)
  else if 97 ≤ c.toNat ∧ c.toNat ≤ 102 then some (c.toNat - 87)
  else if 65 ≤ c.toNat ∧ c.toNat ≤ 70 then some (c.toNat - 55)
  else none

/-- `c` is a hexadecimal digit. -/
def isHexDit (c : Char) : Bool := (hexVal c).isSome

/-- Accumulate hexadecimal digits left to right; `none` on the first
non-digit. -/
def parseHexCore : List Char → Nat → Option Nat
  | [], acc => some acc
  | c :: cs, acc =>
    match hexVal c with
    | some v => parseHexCore cs (acc * 16 + v)
    | none => none

/-- Model of Go `strconv.ParseInt(s, 16, 32)`: optional sign, at least one
hex digit, and the value must fit in a signed 32-bit integer.  (Go reports
overflow as an error, which the caller treats the same as a syntax
error.) -/
def parseIntHex32 (l : List Char) : Option Int :=
  let neg : Bool := l.head? = some '-'
  let digits : List Char :=
    if l.head? = some '-' ∨ l.head? = some '+' then l.tail else l
  match digits with
  | [] => none
  | _ =>
    match parseHexCore digits 0 with
    | none => none
    | some n =>
      if neg then (if n ≤ 2 ^ 31 then some (-(n : Int)) else none)
      else (if n ≤ 2 ^ 31 - 1 then some (n : Int) else none)

/-- The `tryConvert` closure of `extractIPv4FromIPv6` (nat.go:610-615):
parse the substring as base-16; on success render the value in decimal
(`fmt.Sprintf`), otherwise return the substring unchanged. -/
def tryConvert (l : List Char) : List Char :=
  match parseIntHex32 l with
  | some v => (toString v).data
  | none => l

/-- Decimal rendering used on both the code side and the spec side when
stating expected dotted quads. -/
def decRepr (n : Nat) : List Char := (toString (n : Int)).data

/-! ## The embedded-IPv4 decoder (`extractIPv4FromIPv6`, nat.go:582-663) -/

/-- The two-hextet branch of `extractIPv4FromIPv6` (nat.go:618-652): the
tail after the double colon split into exactly two hex groups `hex1:hex2`.
`hex1` must have four digits and `hex2` one to four; the four octets are
assembled as in the Go code (`hex1[:2]`, `hex1[2:]`, and a width-dependent
split of `hex2`). -/
def twoGroupDecode (hex1 hex2 : List Char) : List Char :=
  if hex1.length = 4 ∧ 1 ≤ hex2.length ∧ hex2.length ≤ 4 then
    let part1 := tryConvert (hex1.take 2)
    let part2 := tryConvert (hex1.drop 2)
    let part34 : List Char × List Char :=
      if hex2.length = 1 then (['0'], tryConvert hex2)
      else if hex2.length = 2 then (tryConvert (hex2.take 1), tryConvert (hex2.drop 1))
      else if hex2.length = 3 then (tryConvert (hex2.take 1), tryConvert (hex2.drop 1))
      else (tryConvert (hex2.take 2), tryConvert (hex2.drop 2))
    part1 ++ '.' :: part2 ++ '.' :: part34.1 ++ '.' :: part34.2
  else []

/-- The `len(hexParts) >= 4` branch of `extractIPv4FromIPv6`
(nat.go:653-656): treat the first four hex groups as the four octets. -/
def fourGroupDecode : List (List Char) → List Char
  | a :: b :: c :: d :: _ =>
    tryConvert a ++ '.' :: tryConvert b ++ '.' :: tryConvert c ++ '.' :: tryConvert d
  | _ => []

/-- Everything of `extractIPv4FromIPv6` after the textual mixed-notation
loop (nat.go:594-662): optional bracket trim, split on `"::"`, and the
hex-group decoding of the last part. -/
def extractRest (addr0 : List Char) : List Char :=
  let addr :=
    if ['['].isPrefixOf addr0 && List.isSuffixOf [']'] addr0
    then trimSet ['[', ']'] addr0 else addr0
  if containsStr [':'] addr then
    let parts := splitCC [] addr
    if parts.length > 1 then
      match parts.getLast? with
      | some lastPart =>
        if containsStr [':'] lastPart then
          let hexParts := splitCh ':' lastPart
          if hexParts.length ≥ 2 then
            if hexParts.length = 2 then
              twoGroupDecode (hexParts.headD []) ((hexParts.drop 1).headD [])
            else if hexParts.length ≥ 4 then fourGroupDecode hexParts
            else []
          else []
        else []
      | none => []
    else []
  else []

/-- `extractIPv4FromIPv6` (nat.go:582-663) on character lists.  First the
textual mixed notation: if the address carries both a colon and a dot,
return the first colon-separated part that carries a dot; otherwise fall
through to the hex-group decoding. -/
def extractL (addr : List Char) : List Char :=
  if containsStr [':'] addr && containsStr ['.'] addr then
    match (splitCh ':' addr).find? (fun p => containsStr ['.'] p) with
    | some p => p
    | none => extractRest addr
  else extractRest addr

/-- `extractIPv4FromIPv6` on `String`, the form used by the claims. -/
def extractIPv4FromIPv6 (addr : String) : String := ⟨extractL addr.data⟩

/-! ## Further string primitives used by the rule engine -/

/-- Model of Go `strings.Replace(s, old, new, 1)`: replace the first
occurrence of `pat` by `rep`; if `pat` does not occur, return the list
unchanged. -/
def replaceFirstL (pat rep : List Char) : List Char → List Char
  | [] => []
  | x :: xs =>
    if pat.isPrefixOf (x :: xs) then rep ++ (x :: xs).drop pat.length
    else x :: replaceFirstL pat rep xs

/-- `strings.Contains` on `String`. -/
def containsStrS (pat s : String) : Bool := containsStr pat.data s.data

/-- `strings.HasPrefix` on `String`. -/
def startsWithStr (pat s : String) : Bool := pat.data.isPrefixOf s.data

/-- `strings.Replace(s, old, new, 1)` on `String`. -/
def replaceFirstS (pat rep s : String) : String := ⟨replaceFirstL pat.data rep.data s.data⟩

/-- Accumulate decimal digits left to right; `none` on the first
non-digit.  Used for IPv4 octets, mask widths and port numbers. -/
def parseDecCore : List Char → Nat → Option Nat
  | [], acc => some acc
  | c :: cs, acc =>
    if '0' ≤ c ∧ c ≤ '9' then parseDecCore cs (acc * 10 + (c.toNat - 48))
    else none

/-- Parse a non-empty all-decimal string. -/
def parseDecNat (l : List Char) : Option Nat :=
  match l with
  | [] => none
  | _ => parseDecCore l 0

/-! ## CIDR matching

`matchesCIDR` (nat.go:665-680) delegates to Go's `net.ParseCIDR`,
`net.ParseIP` and `IPNet.Contains`, which are outside `src/`.

Modelled from the spec: `parseCIDR(s)` parses dotted-quad/width CIDR
notation, `containsIP(network, ip)` compares the masked bit prefixes, and
mixed address families never match (only the IPv4 family is exercised by
any rule of this development, so the model parses IPv4 only and an IPv6
literal simply fails to parse, which yields `false` as the spec
requires). -/

/-- Parse a dotted quad `a.b.c.d` into its 32-bit value. -/
def parseIPv4Nat (l : List Char) : Option Nat :=
  match splitCh '.' l with
  | [a, b, c, d] =>
    match parseDecNat a, parseDecNat b, parseDecNat c, parseDecNat d with
    | some x, some y, some z, some w =>
      if x ≤ 255 ∧ y ≤ 255 ∧ z ≤ 255 ∧ w ≤ 255 then
        some (x * 16777216 + y * 65536 + z * 256 + w)
      else none
    | _, _, _, _ => none
  | _ => none

/-- Parse `a.b.c.d/n` into the network value and the mask width. -/
def parseCIDRv4 (l : List Char) : Option (Nat × Nat) :=
  match splitCh '/' l with
  | [ip, m] =>
    match parseIPv4Nat ip, parseDecNat m with
    | some i, some n => if n ≤ 32 then some (i, n) else none
    | _, _ => none
  | _ => none

/-- `matchesCIDR` (nat.go:665-680): false when the CIDR or the address
fails to parse, else bitwise prefix containment. -/
def matchesCIDR (ip cidr : String) : Bool :=
  match parseCIDRv4 cidr.data, parseIPv4Nat ip.data with
  | some (net, n), some a => a / 2 ^ (32 - n) == net / 2 ^ (32 - n)
  | _, _ => false

/-! ## Destinations and the rule data model -/

/-- The projections of `net.Destination` that the handler reads:
`Address.String()`, `Port.Value()` and `Network.String()` (lower-case
`"tcp"`/`"udp"`). -/
structure DestinationM where
  addrStr : String
  port : Nat
  network : String
deriving DecidableEq, Repr

/-- `PortMapping` config message (originalPort, translatedPort). -/
structure PortMapping where
  originalPort : String
  translatedPort : String
deriving DecidableEq, Repr

/-- `NATRule` config message. -/
structure NATRule where
  ruleId : String
  sourceSite : String
  virtualDestination : String
  realDestination : String
  protocol : String
  portMapping : Option PortMapping
deriving DecidableEq, Repr

/-- `VirtualIPRange` config message.  The Go field `Ipv6VirtualPrefix`
is renamed `ipv6VirtualPfx` here. -/
structure VirtualIPRange where
  virtualNetwork : String
  realNetwork : String
  ipv6Enabled : Bool
  ipv6VirtualPfx : String
deriving DecidableEq, Repr

/-- `SessionTimeout` config message (seconds, uint32). -/
structure SessionTimeoutCfg where
  tcpTimeout : Nat
  udpTimeout : Nat
  cleanupInterval : Nat
deriving DecidableEq, Repr

/-- `ResourceLimits` config message.  The float field
`CleanupThreshold` is never read by any code under `proxy/nat` and is
omitted. -/
structure ResourceLimitsCfg where
  maxSessions : Nat
  maxMemoryMb : Nat
deriving DecidableEq, Repr

/-- The `Config` message consumed by `Handler.Init` and
`Config.Equals`. -/
structure Config where
  siteId : String
  userLevel : Nat
  enableTcp : Bool
  enableUdp : Bool
  virtualRanges : List VirtualIPRange
  rules : List NATRule
  sessionTimeout : Option SessionTimeoutCfg
  limits : Option ResourceLimitsCfg
deriving DecidableEq, Repr

/-! ## The rule-engine predicates (nat.go:495-770) -/

/-- `matchesIPv6EmbeddedIPv4` (nat.go:527-548): the destination string
must carry both a colon and a dot, its embedded IPv4 must be non-empty,
and the rule destination must start with the fixed prefix
`"64:FF9B:1111::"`; the remainder is compared to the extracted IPv4
either as a CIDR or literally. -/
def matchesIPv6EmbeddedIPv4 (destination : DestinationM) (virtualNetwork : String) : Bool :=
  let destStr := destination.addrStr
  if containsStrS ":" destStr && containsStrS "." destStr then
    let extractedIPv4 := extractIPv4FromIPv6 destStr
    if extractedIPv4 ≠ "" then
      if startsWithStr "64:FF9B:1111::" virtualNetwork then
        let virtualIPv4 := replaceFirstS "64:FF9B:1111::" "" virtualNetwork
        if containsStrS "/" virtualIPv4 then matchesCIDR extractedIPv4 virtualIPv4
        else extractedIPv4 == virtualIPv4
      else false
    else false
  else false

/-- `matchesVirtualDestination` (nat.go:495-506): IPv6-embedded-IPv4
matching when the rule destination carries both a colon and a dot,
otherwise exact string equality of the destination address against the
rule destination. -/
def matchesVirtualDestination (destination : DestinationM) (virtualNetwork : String) : Bool :=
  let destStr := destination.addrStr
  if containsStrS ":" virtualNetwork && containsStrS "." virtualNetwork then
    matchesIPv6EmbeddedIPv4 destination virtualNetwork
  else destStr == virtualNetwork

/-- `matchesPort` (nat.go:702-712): `true` when the rule has no port
mapping, and also `true` when it has one (the code defers all port logic
to the transformation phase). -/
def matchesPort (destination : DestinationM) (rule : NATRule) : Bool :=
  match rule.portMapping with
  | none => true
  | some _ => true

/-- Modelled from the spec: `xnet.PortFromString` (outside `src/`)
parses a decimal port and fails on a syntax error or a value beyond
65535. -/
def parsePortS (l : List Char) : Option Nat :=
  match parseDecNat l with
  | some n => if n ≤ 65535 then some n else none
  | none => none

/-- `mapPort` (nat.go:714-743).  The translated-port fallback
(nat.go:735-742) is hoisted into `translate`; the control flow is
otherwise a direct transcription: a single-token `originalPort` that
parses and differs from the destination port short-circuits to the
original port, every other path falls through to `translate`. -/
def mapPort (originalPort : Nat) (portMapping : Option PortMapping) : Nat :=
  match portMapping with
  | none => originalPort
  | some pm =>
    let translate : Nat :=
      if pm.translatedPort ≠ "" then
        match parsePortS pm.translatedPort.data with
        | some t => t
        | none => originalPort
      else originalPort
    if pm.originalPort ≠ "" ∧ pm.originalPort ≠ "any" then
      let specified := splitCh '-' pm.originalPort.data
      if specified.length = 1 then
        match parsePortS (specified.headD []) with
        | some sp => if sp ≠ originalPort then originalPort else translate
        | none => translate
      else translate
    else translate

/-! ## Spec-side predicates (refinement targets)

The following definitions follow the *spec's words*, not the source; the
claim theorems compare them with the source embeddings above. -/

/-- Follows the spec's words: the destination address is contained in the
rule's CIDR (bitwise prefix comparison after parsing both sides). -/
def specCIDRContains (cidr addr : String) : Bool :=
  match parseCIDRv4 cidr.data, parseIPv4Nat addr.data with
  | some (net, n), some a => a / 2 ^ (32 - n) == net / 2 ^ (32 - n)
  | _, _ => false

/-- Follows the claim C1's words: exact address equality for a literal
rule destination, or CIDR containment when the rule destination is a
CIDR, or the IPv6-embedded-IPv4 match when the rule destination carries
both a colon and a dot. -/
def claimMatchesVirtualDestination (destination : DestinationM) (vn : String) : Bool :=
  (vn == destination.addrStr) || specCIDRContains vn destination.addrStr ||
    (containsStrS ":" vn && containsStrS "." vn && matchesIPv6EmbeddedIPv4 destination vn)

/-- Hexadecimal value of a digit string (spec side; digits assumed). -/
def hexN (l : List Char) : Nat := l.foldl (fun a c => a * 16 + (hexVal c).getD 0) 0

/-- Follows the claim C2's words: pad the second group to its natural
four-digit width, then split both groups into byte pairs; the four bytes
are the four octets. -/
def claimCompressedDecode (g1 g2 : List Char) : List Char :=
  let p := List.replicate (4 - g2.length) '0' ++ g2
  decRepr (hexN (g1.take 2)) ++ '.' :: decRepr (hexN (g1.drop 2)) ++ '.' ::
    decRepr (hexN (p.take 2)) ++ '.' :: decRepr (hexN (p.drop 2))

/-- Follows the claim C4's words: the flow's destination port lies within
the rule's `originalPort` spec — a single port, a dash-delimited range,
or empty meaning any. -/
def claimPortInSpec (p : Nat) (portSpec : String) : Bool :=
  if portSpec = "" then true
  else
    match splitCh '-' portSpec.data with
    | [a] =>
      match parsePortS a with
      | some q => q == p
      | none => false
    | [a, b] =>
      match parsePortS a, parsePortS b with
      | some lo, some hi => decide (lo ≤ p ∧ p ≤ hi)
      | _, _ => false
    | _ => false

/-- Follows the claim C4's words: the rule has no port map, or the flow's
destination port lies within the rule's `originalPort` spec. -/
def claimMatchesPort (destination : DestinationM) (rule : NATRule) : Bool :=
  match rule.portMapping with
  | none => true
  | some pm => claimPortInSpec destination.port pm.originalPort

/-- Follows the claim C3's words: `translatedPort` whenever
`originalPort` is empty or `"any"`; `translatedPort` when `originalPort`
is a single port equal to the destination port or a dash-delimited range
containing it; the destination port unchanged otherwise. -/
def claimMapPort (p : Nat) (pm : PortMapping) : Nat :=
  let t := (parsePortS pm.translatedPort.data).getD p
  if pm.originalPort = "" ∨ pm.originalPort = "any" then t
  else
    match splitCh '-' pm.originalPort.data with
    | [a] =>
      match parsePortS a with
      | some q => if q = p then t else p
      | none => p
    | [a, b] =>
      match parsePortS a, parsePortS b with
      | some lo, some hi => if lo ≤ p ∧ p ≤ hi then t else p
      | _, _ => p
    | _ => p

/-! ## The session table (nat.go:361-437, 897-1023)

State of a `Handler` as far as the session path reads or writes it.  The
`sync.Map` is modelled as an association list with (invariantly) distinct
keys, the LRU `list.List`/`lruMap` pair as a list of session ids with the
most recent at the front.  `activeSessions`, `maxSessions` and
`maxMemoryMB` are Go `int64` values, modelled as `Int`. -/

/-- The fields of `NATSession` (nat.go:386-397). -/
structure NATSessionM where
  protocol : String
  virtualDest : DestinationM
  realDest : DestinationM
  createdAt : Int
  lastActivity : Int
  direction : String
deriving DecidableEq, Repr

/-- Handler state touched by the session path. -/
structure HandlerState where
  table : List (String × NATSessionM)
  lru : List String
  activeSessions : Int
  totalSessions : Int
  maxSessions : Int
  maxMemoryMB : Int
deriving DecidableEq, Repr

/-- `sync.Map.Store`: replace the value under an existing key, otherwise
add the binding. -/
def storeAssoc (id : String) (v : NATSessionM) :
    List (String × NATSessionM) → List (String × NATSessionM)
  | [] => [(id, v)]
  | (k, w) :: rest =>
    if k = id then (k, v) :: rest else (k, w) :: storeAssoc id v rest

/-- `sync.Map.Delete` / `LoadAndDelete`: remove the binding of a key. -/
def eraseAssoc (id : String) :
    List (String × NATSessionM) → List (String × NATSessionM)
  | [] => []
  | (k, w) :: rest => if k = id then rest else (k, w) :: eraseAssoc id rest

/-- Remove the (unique) occurrence of a session id from the LRU list. -/
def eraseStr (id : String) : List String → List String
  | [] => []
  | x :: xs => if x = id then xs else x :: eraseStr id xs

/-- `generateSessionID` (nat.go:1026-1031); the `time.Now().Format(...)`
component is the opaque `timeStr`. -/
def generateSessionID (virtualDest realDest : DestinationM) (timeStr : String) : String :=
  virtualDest.addrStr ++ ":" ++ toString virtualDest.port ++ "->" ++
    realDest.addrStr ++ ":" ++ toString realDest.port ++ "_" ++ timeStr

/-- `New` (nat.go:399-410): empty tables, default limits 10000 sessions
and 100 MB. -/
def newHandlerState : HandlerState :=
  { table := [], lru := [], activeSessions := 0, totalSessions := 0,
    maxSessions := 10000, maxMemoryMB := 100 }

/-- `Init` (nat.go:412-437) applied after `New`: limits are taken from
the config only when strictly positive. -/
def initState (cfg : Config) : HandlerState :=
  match cfg.limits with
  | some l =>
    { newHandlerState with
      maxSessions := if 0 < l.maxSessions then (l.maxSessions : Int) else 10000,
      maxMemoryMB := if 0 < l.maxMemoryMb then (l.maxMemoryMb : Int) else 100 }
  | none => newHandlerState

/-- One pass of the LRU eviction loop body (nat.go:956-965): remove the
back of the LRU list from the LRU structures and from the session map and
decrement the active count. -/
def evictOnce (s : HandlerState) : HandlerState :=
  match s.lru.getLast? with
  | some sid =>
    { s with lru := eraseStr sid s.lru, table := eraseAssoc sid s.table,
             activeSessions := s.activeSessions - 1 }
  | none => s

/-- The eviction loop of `enforceSessionLimits`, with explicit fuel; the
loop runs while `activeSessions >= maxSessions` and the LRU list is
non-empty, and every iteration shortens the LRU list, so fuel
`s.lru.length` suffices. -/
def evictLoop : Nat → HandlerState → HandlerState
  | 0, s => s
  | n + 1, s =>
    if s.maxSessions ≤ s.activeSessions ∧ 0 < s.lru.length
    then evictLoop n (evictOnce s) else s

/-- `enforceSessionLimits` (nat.go:950-966). -/
def enforceSessionLimits (s : HandlerState) : HandlerState := evictLoop s.lru.length s

/-- `enforceMemoryLimits` (nat.go:968-983): 2048 bytes estimated per
session; when the memory-derived session bound undercuts `maxSessions`,
lower `maxSessions` to it and, if the active count already reaches it,
evict. -/
def enforceMemoryLimits (s : HandlerState) : HandlerState :=
  let maxSessionsFromMemory : Int := s.maxMemoryMB * 1024 * 1024 / 2048
  if maxSessionsFromMemory < s.maxSessions then
    let s' := { s with maxSessions := maxSessionsFromMemory }
    if s'.maxSessions ≤ s'.activeSessions then enforceSessionLimits s' else s'
  else s

/-- `createNATSession` (nat.go:897-933): build the session record,
enforce the memory cap, then the session cap, store the session, set the
LRU head (move-to-front when the id is already tracked), and bump both
counters.  `now` is the creation instant, `timeStr` the formatted
timestamp used inside the id. -/
def createNATSession (s : HandlerState) (virtualDest realDest : DestinationM)
    (direction : String) (now : Int) (timeStr : String) : HandlerState × NATSessionM :=
  let sessionID := generateSessionID virtualDest realDest timeStr
  let sess : NATSessionM :=
    { protocol := virtualDest.network, virtualDest := virtualDest,
      realDest := realDest, createdAt := now, lastActivity := now,
      direction := direction }
  let s1 := enforceMemoryLimits s
  let s2 := enforceSessionLimits s1
  let s3 := { s2 with table := storeAssoc sessionID sess s2.table }
  let s4 :=
    if sessionID ∈ s3.lru
    then { s3 with lru := sessionID :: eraseStr sessionID s3.lru }
    else { s3 with lru := sessionID :: s3.lru }
  ({ s4 with totalSessions := s4.totalSessions + 1,
             activeSessions := s4.activeSessions + 1 }, sess)

/-- `removeSession` (nat.go:935-948): when the id is loaded, delete it
from the map, decrement the active count and drop it from the LRU
structures; otherwise do nothing. -/
def removeSession (s : HandlerState) (sessionID : String) : HandlerState :=
  if sessionID ∈ s.table.map Prod.fst then
    { s with table := eraseAssoc sessionID s.table,
             activeSessions := s.activeSessions - 1,
             lru := eraseStr sessionID s.lru }
  else s

/-- The sweep timeout (nat.go:1002-1007): `TcpTimeout` seconds when a
session-timeout config is present — for *every* session, regardless of
protocol — else 300 seconds.  In nanoseconds. -/
def sessionTimeoutNanos (cfg : Config) : Int :=
  match cfg.sessionTimeout with
  | some st => (st.tcpTimeout : Int) * 1000000000
  | none => 300 * 1000000000

/-- `cleanupExpiredSessions` (nat.go:997-1023): collect the ids whose
inactivity strictly exceeds the timeout, then remove each. -/
def cleanupExpiredSessions (cfg : Config) (now : Int) (s : HandlerState) : HandlerState :=
  let timeout := sessionTimeoutNanos cfg
  let expiredSessions :=
    ((s.table.filter (fun kv => decide (timeout < now - kv.2.lastActivity))).map Prod.fst)
  expiredSessions.foldl removeSession s

/-- Modelled from the spec: `touch(session)` moves the session to the LRU
head and sets `lastActivity = now` (§4.4); no touch implementation is
present under `src/`. -/
def touchSession (s : HandlerState) (sessionID : String) (now : Int) : HandlerState :=
  if sessionID ∈ s.table.map Prod.fst then
    { s with
      table := s.table.map (fun kv =>
        if kv.1 = sessionID then (kv.1, { kv.2 with lastActivity := now }) else kv),
      lru := if sessionID ∈ s.lru then sessionID :: eraseStr sessionID s.lru else s.lru }
  else s

/-- One session-table operation, as quantified over by claim C6. -/
inductive TableOp
  | create (virtualDest realDest : DestinationM) (direction : String) (now : Int) (timeStr : String)
  | touch (sessionID : String) (now : Int)
  | remove (sessionID : String)
  | sweep (now : Int)

/-- Apply one operation to the handler state. -/
def applyOp (cfg : Config) (s : HandlerState) : TableOp → HandlerState
  | .create vd rd dir now ts => (createNATSession s vd rd dir now ts).1
  | .touch id now => touchSession s id now
  | .remove id => removeSession s id
  | .sweep now => cleanupExpiredSessions cfg now s

/-- Apply a finite sequence of operations. -/
def applyOps (cfg : Config) (s : HandlerState) (ops : List TableOp) : HandlerState :=
  ops.foldl (applyOp cfg) s

/-! ## Claim C5: the sweep ignores the UDP timeout -/

/-- A configuration with the documented timeouts: 300 s TCP, 60 s UDP. -/
def c5cfg : Config :=
  { siteId := "site-b", userLevel := 0, enableTcp := true, enableUdp := true,
    virtualRanges := [], rules := [],
    sessionTimeout := some ⟨300, 60, 30⟩, limits := some ⟨10000, 100⟩ }

/-- The state holding one UDP session created at instant 0. -/
def c5state : HandlerState :=
  (createNATSession (initState c5cfg) ⟨"240.2.2.20", 53, "udp"⟩
    ⟨"192.168.1.20", 53, "udp"⟩ "outbound" 0 "t").1

/-- The configuration of claim C7: `maxSessions = 0`. -/
def c7cfg : Config :=
  { siteId := "s", userLevel := 0, enableTcp := true, enableUdp := true,
    virtualRanges := [], rules := [], sessionTimeout := none,
    limits := some ⟨0, 100⟩ }

/-! ## Claim C9: `Config.Equals` compares only counts -/

/-- `Config.Equals` (config.go:9-38) for two non-nil `*Config` values:
site id, user level, then only the *lengths* of the two lists.  (The
`another == nil` and failed-type-assertion guards of config.go:10-17
concern a nil or non-`Config` argument and fall outside this
`Config`-to-`Config` comparison.) -/
def configEquals (c that : Config) : Bool :=
  if c.siteId ≠ that.siteId ∨ c.userLevel ≠ that.userLevel then false
  else if c.virtualRanges.length ≠ that.virtualRanges.length then false
  else if c.rules.length ≠ that.rules.length then false
  else true

/-- First config of the C9 pair. -/
def c9a : Config :=
  { siteId := "site", userLevel := 1, enableTcp := true, enableUdp := true,
    virtualRanges := [⟨"240.2.2.0/24", "192.168.1.0/24", false, ""⟩],
    rules := [⟨"a", "", "240.2.2.20", "192.168.1.20", "tcp", none⟩],
    sessionTimeout := none, limits := none }

/-- Second config of the C9 pair: same counts, different contents. -/
def c9b : Config :=
  { siteId := "site", userLevel := 1, enableTcp := true, enableUdp := true,
    virtualRanges := [⟨"250.0.0.0/8", "10.0.0.0/8", true, "64:ff9b::"⟩],
    rules := [⟨"b", "", "240.9.9.9", "172.16.0.1", "udp", some ⟨"80", "81"⟩⟩],
    sessionTimeout := none, limits := none }

/-! ## Claim C10: `Close` may be called at most once -/

/-- The lifecycle state `Close` touches: whether the `done` channel has
been closed and whether the cleanup ticker has been stopped. -/
structure HandlerLifecycle where
  doneClosed : Bool
  tickerStopped : Bool
deriving DecidableEq, Repr

/-- Modelled from the spec of Go's `close`: closing an already-closed
channel panics; the panic is represented by `Except.error`. -/
def closeChan (alreadyClosed : Bool) : Except String Bool :=
  if alreadyClosed then Except.error "close of closed channel" else Except.ok true

/-- `Close` (nat.go:1033-1038): `close(h.done)` unconditionally — no
guard, no `sync.Once` — then stop the ticker and return nil. -/
def handlerClose (st : HandlerLifecycle) : Except String HandlerLifecycle :=
  match closeChan st.doneClosed with
  | Except.error e => Except.error e
  | Except.ok _ => Except.ok { doneClosed := true, tickerStopped := true }

/-! ## Claim C8: dial failure tears the session down -/

/-- The retry attempt bound passed at nat.go:820
(`retry.ExponentialBackoff(5, 100)`). -/
def natRetryAttempts : Nat := 5

/-- The retry base delay in milliseconds passed at nat.go:820. -/
def natRetryBaseMs : Nat := 100

/-- Modelled from the spec: the delays of an exponential backoff from the
base delay — the i-th failed attempt waits `baseMs * 2^i` ms
(`retry.ExponentialBackoff` lives outside `src/`). -/
def backoffDelaysMs (attempts baseMs : Nat) : List Nat :=
  (List.range attempts).map (fun i => baseMs * 2 ^ i)

/-- Modelled from the spec: `retry.ExponentialBackoff(n, base).On(f)`
runs `f` up to `n` times, stopping at the first success; the pair
returned here is (success, number of attempts actually made). -/
def runRetryFrom (dial : Nat → Bool) : Nat → Nat → Bool × Nat
  | _, 0 => (false, 0)
  | i, n + 1 =>
    if dial i then (true, 1)
    else
      let r := runRetryFrom dial (i + 1) n
      (r.1, r.2 + 1)

/-- The dial loop of `handleNATOutbound` (nat.go:819-827). -/
def dialWithRetry (dial : Nat → Bool) : Bool × Nat :=
  runRetryFrom dial 0 natRetryAttempts

/-- Possible outcomes of the dial phase of `handleNATOutbound`. -/
inductive NATOutboundResult
  | connected
  | dialFailed
deriving DecidableEq, Repr

/-- The dial phase of `handleNATOutbound` (nat.go:808-832): create the
session, dial the transformed destination with retry; on total failure
remove the session (nat.go:830) and fail with the dial error. -/
def handleNATOutboundDial (s : HandlerState) (virtualDest realDest : DestinationM)
    (now : Int) (timeStr : String) (dial : Nat → Bool) :
    HandlerState × NATOutboundResult :=
  let s1 := (createNATSession s virtualDest realDest "outbound" now timeStr).1
  if (dialWithRetry dial).1 then (s1, .connected)
  else (removeSession s1 (generateSessionID virtualDest realDest timeStr), .dialFailed)

/-- The invariant carried by every reachable handler state: the LRU list
and the key list of the session map are duplicate-free views of the same
id set of equal size, the active counter dominates the map size, the
current `maxSessions` is positive and never exceeds the configured
target, `maxMemoryMB` is pinned to its configured value, and — the bound
of claim C6 — the map size never exceeds the minimum of the configured
session cap and the memory-derived cap. -/
structure TableInv (msT mm0 : Int) (s : HandlerState) : Prop where
  lruNodup : s.lru.Nodup
  keysNodup : (s.table.map Prod.fst).Nodup
  memIff : ∀ x, x ∈ s.lru ↔ x ∈ s.table.map Prod.fst
  lenEq : s.lru.length = s.table.length
  activeGe : (s.table.length : Int) ≤ s.activeSessions
  maxPos : 1 ≤ s.maxSessions
  maxLe : s.maxSessions ≤ msT
  memEq : s.maxMemoryMB = mm0
  sizeLe : (s.table.length : Int) ≤ min msT (mm0 * 1024 * 1024 / 2048)

/-- The configuration used to witness C6: caps of 1 session and 1 MB. -/
def c6cfg : Config :=
  { siteId := "s", userLevel := 0, enableTcp := true, enableUdp := true,
    virtualRanges := [], rules := [], sessionTimeout := none,
    limits := some ⟨1, 1⟩ }

/-- Proof-side detector of two consecutive colons. -/
def hasDCb : List Char → Bool
  | [] => false
  | x :: xs => (decide (x = ':') && decide (xs.head? = some ':')) || hasDCb xs


/-! ### Part 2: theorems -/

example : extractIPv4FromIPv6 "64:FF9B:1111::192.168.1.1" = "192.168.1.1" := by decide

example : extractIPv4FromIPv6 "2001:db8::1" = "" := by decide

example : extractIPv4FromIPv6 "192.168.1.1" = "" := by decide

example : extractIPv4FromIPv6 "[64:ff9b:1111::c0a8:164]" = "192.168.1.100" := by decide

example : extractIPv4FromIPv6 "[64:ff9b:1111::c0a8:101]" = "192.168.1.1" := by decide

example : mapPort 8080 (some ⟨"8080", "80"⟩) = 80 := by decide

example : mapPort 8081 (some ⟨"8080", "80"⟩) = 8081 := by decide

example : mapPort 443 (some ⟨"any", "80"⟩) = 80 := by decide

example : mapPort 443 (some ⟨"", "80"⟩) = 80 := by decide

example : mapPort 7999 (some ⟨"8000-9000", "80"⟩) = 80 := by decide

/-! ## Claim C1 -/

/-- C1 counterexample: the claim also requires CIDR containment to match
for a CIDR rule destination, but `matchesVirtualDestination` has no CIDR
branch — a plain IPv4 CIDR rule destination is compared by literal string
equality only.  At destination `10.0.0.5` and rule destination
`10.0.0.0/24` the claimed predicate holds while the code returns
`false`. -/
theorem C1_counterexample :
    claimMatchesVirtualDestination ⟨"10.0.0.5", 80, "tcp"⟩ "10.0.0.0/24" = true ∧
    matchesVirtualDestination ⟨"10.0.0.5", 80, "tcp"⟩ "10.0.0.0/24" = false := by
  constructor
  · decide
  · decide

/-- C1 (amended): `matchesVirtualDestination` holds exactly when either
the rule destination carries both a colon and a dot and the
IPv6-embedded-IPv4 match applies, or the rule destination does not carry
both and equals the destination address literally; CIDR containment is
never consulted for a plain CIDR rule destination. -/
theorem C1_matchesVirtualDestination_amended (destination : DestinationM) (vn : String) :
    matchesVirtualDestination destination vn = true ↔
      ((containsStrS ":" vn && containsStrS "." vn) = true ∧
        matchesIPv6EmbeddedIPv4 destination vn = true) ∨
      ((containsStrS ":" vn && containsStrS "." vn) = false ∧
        destination.addrStr = vn) := by
  unfold matchesVirtualDestination
  by_cases h : (containsStrS ":" vn && containsStrS "." vn) = true
  · simp [h]
  · simp only [Bool.not_eq_true] at h
    simp [h]

/-! ## Claim C2 (counterexample; the amended theorem follows later) -/

/-- C2 counterexample: for a two-digit second group the code decodes the
two digits individually (`6`, `4`), not the padded byte pair (`00`,
`64`): `64:ff9b:1111::c0a8:64` yields `192.168.6.4` where the claim's
padding rule says `192.168.0.100`.  Moreover, an address whose tail
after the double colon has four hex groups fits neither claimed form yet
returns a non-empty result. -/
theorem C2_counterexample :
    extractIPv4FromIPv6 "64:ff9b:1111::c0a8:64" = "192.168.6.4" ∧
    claimCompressedDecode "c0a8".data "64".data = "192.168.0.100".data ∧
    ("192.168.6.4" : String) ≠ "192.168.0.100" ∧
    extractIPv4FromIPv6 "64:ff9b:1111::1:2:3:4" = "1.2.3.4" := by
  refine ⟨by decide, by decide, by decide, by decide⟩

/-! ## Claim C3 -/

/-- C3 counterexample: for the dash-delimited range `8000-9000` with
translated port `80`, the port `7999` lies immediately outside the range,
so the claim maps it through unchanged; the code never checks range
containment and maps it to `80`. -/
theorem C3_counterexample :
    claimMapPort 7999 ⟨"8000-9000", "80"⟩ = 7999 ∧
    mapPort 7999 (some ⟨"8000-9000", "80"⟩) = 80 ∧ (80 : Nat) ≠ 7999 := by
  refine ⟨by decide, by decide, by decide⟩

/-- C3 (amended): with a parseable `translatedPort t`, `mapPort` returns
`t` when `originalPort` is empty or `"any"`; returns `t` for *every*
destination port when `originalPort` is dash-delimited (containment is
not checked); and for a single-token `originalPort` returns the
destination port unchanged exactly when the token parses to a different
port, `t` when it parses to the destination port or fails to parse. -/
theorem C3_mapPort_amended (p t : Nat) (pm : PortMapping)
    (ht : parsePortS pm.translatedPort.data = some t) (hne : pm.translatedPort ≠ "") :
    ((pm.originalPort = "" ∨ pm.originalPort = "any") → mapPort p (some pm) = t) ∧
    (pm.originalPort ≠ "" → pm.originalPort ≠ "any" →
      (splitCh '-' pm.originalPort.data).length ≠ 1 → mapPort p (some pm) = t) ∧
    (∀ q, pm.originalPort ≠ "" → pm.originalPort ≠ "any" →
      splitCh '-' pm.originalPort.data = [q] →
      ((parsePortS q = some p → mapPort p (some pm) = t) ∧
       (∀ v, parsePortS q = some v → v ≠ p → mapPort p (some pm) = p) ∧
       (parsePortS q = none → mapPort p (some pm) = t))) := by
  refine ⟨?_, ?_, ?_⟩
  · intro h
    rcases h with h | h <;> simp [mapPort, h, ht, hne]
  · intro h1 h2 h3
    simp [mapPort, h1, h2, h3, ht, hne]
  · intro q h1 h2 hq
    refine ⟨?_, ?_, ?_⟩
    · intro hp
      simp [mapPort, h1, h2, hq, hp, ht, hne]
    · intro v hv hvp
      simp [mapPort, h1, h2, hq, hv, hvp, ht, hne]
    · intro hn
      simp [mapPort, h1, h2, hq, hn, ht, hne]

/-- C3 amended, witnessed at the range `8000-9000 → 80` and destination
port `1`: the range maps every port, so port `1` becomes `80`. -/
theorem C3_mapPort_amended_witness :
    parsePortS ("80" : String).data = some 80 ∧ ("80" : String) ≠ "" ∧
    mapPort 1 (some ⟨"8000-9000", "80"⟩) = 80 :=
  ⟨by decide, by decide,
    (C3_mapPort_amended 1 80 ⟨"8000-9000", "80"⟩ (by decide) (by decide)).2.1
      (by decide) (by decide) (by decide)⟩

/-! ## Claim C4 -/

/-- C4 counterexample: a rule whose port mapping has `originalPort "80"`
and a flow to port `81`: the claim's predicate is false (81 is not in the
spec), the code's `matchesPort` is nonetheless true. -/
theorem C4_counterexample :
    claimMatchesPort ⟨"10.0.0.1", 81, "tcp"⟩
      ⟨"r1", "", "10.0.0.1", "192.168.1.1", "tcp", some ⟨"80", "8080"⟩⟩ = false ∧
    matchesPort ⟨"10.0.0.1", 81, "tcp"⟩
      ⟨"r1", "", "10.0.0.1", "192.168.1.1", "tcp", some ⟨"80", "8080"⟩⟩ = true := by
  refine ⟨by decide, by decide⟩

/-- C4 (amended): `matchesPort` returns `true` for every destination and
every rule — when a port mapping is present the code defers all port
logic to the transformation phase instead of filtering. -/
theorem C4_matchesPort_amended (destination : DestinationM) (rule : NATRule) :
    matchesPort destination rule = true := by
  unfold matchesPort
  cases rule.portMapping <;> rfl

/-- C5: evaluation of the code at the failing input.  The table holds one
UDP session idle for 61 s — past the configured 60 s UDP timeout, so the
claim (and the repository's own `SessionTimeout` schema) says the sweep
removes it — yet `cleanupExpiredSessions` applies the TCP timeout
(300 s) to every session regardless of protocol and retains it
unchanged. -/
theorem C5_sweep_ignores_udp_timeout :
    (c5state.table.map (fun kv => kv.2.protocol)) = ["udp"] ∧
    sessionTimeoutNanos c5cfg = 300 * 1000000000 ∧
    (cleanupExpiredSessions c5cfg (61 * 1000000000) c5state).table = c5state.table ∧
    (cleanupExpiredSessions c5cfg (301 * 1000000000) c5state).table = [] := by
  refine ⟨by decide, by decide, by decide, by decide⟩

/-! ## Claim C7: `maxSessions = 0` is ignored, not `ResourceExhausted` -/

/-- A session is always stored under its id. -/
theorem mem_keys_storeAssoc (id : String) (v : NATSessionM)
    (t : List (String × NATSessionM)) : id ∈ (storeAssoc id v t).map Prod.fst := by
  induction t with
  | nil => simp [storeAssoc]
  | cons kv rest ih =>
    obtain ⟨k, w⟩ := kv
    by_cases h : k = id
    · have hs : storeAssoc id v ((k, w) :: rest) = (k, v) :: rest := by
        simp [storeAssoc, h]
      rw [hs, List.map_cons, h]
      exact List.mem_cons_self _ _
    · have hs : storeAssoc id v ((k, w) :: rest) = (k, w) :: storeAssoc id v rest := by
        simp [storeAssoc, h]
      rw [hs, List.map_cons]
      exact List.mem_cons_of_mem _ ih

/-- The session map written by `createNATSession` is the post-eviction map
with the new session stored. -/
theorem createNATSession_table_eq (s : HandlerState) (vd rd : DestinationM)
    (dir : String) (now : Int) (ts : String) :
    (createNATSession s vd rd dir now ts).1.table =
      storeAssoc (generateSessionID vd rd ts)
        { protocol := vd.network, virtualDest := vd, realDest := rd,
          createdAt := now, lastActivity := now, direction := dir }
        (enforceSessionLimits (enforceMemoryLimits s)).table := by
  unfold createNATSession
  dsimp only
  split <;> rfl

/-- C7 counterexample: with `maxSessions = 0` the claim says the table
refuses every flow and no session is inserted; in the code `Init` applies
only strictly positive configured limits, so the default 10000 stands,
and `createNATSession` admits the flow and inserts its session. -/
theorem C7_counterexample :
    (initState c7cfg).maxSessions = 10000 ∧
    ((createNATSession (initState c7cfg) ⟨"240.2.2.20", 80, "tcp"⟩
        ⟨"192.168.1.20", 80, "tcp"⟩ "outbound" 0 "t").1.table.map Prod.fst) =
      [generateSessionID ⟨"240.2.2.20", 80, "tcp"⟩ ⟨"192.168.1.20", 80, "tcp"⟩ "t"] := by
  refine ⟨by decide, by decide⟩

/-- C7 (amended): a configured `maxSessions = 0` is ignored — `Init`
keeps the default limit 10000 — and `createNATSession` always inserts the
flow's session into the table; no `ResourceExhausted` rejection path
exists on the session path. -/
theorem C7_maxSessions_zero_amended (cfg : Config) (l : ResourceLimitsCfg)
    (vd rd : DestinationM) (dir : String) (now : Int) (ts : String)
    (hl : cfg.limits = some l) (h0 : l.maxSessions = 0) :
    (initState cfg).maxSessions = 10000 ∧
    generateSessionID vd rd ts ∈
      ((createNATSession (initState cfg) vd rd dir now ts).1.table.map Prod.fst) := by
  constructor
  · simp [initState, hl, h0]
  · rw [createNATSession_table_eq]
    exact mem_keys_storeAssoc _ _ _

/-- C7 amended, witnessed at the concrete `maxSessions = 0` config. -/
theorem C7_maxSessions_zero_amended_witness :
    c7cfg.limits = some ⟨0, 100⟩ ∧
    (initState c7cfg).maxSessions = 10000 ∧
    generateSessionID ⟨"a", 1, "tcp"⟩ ⟨"b", 2, "tcp"⟩ "t" ∈
      ((createNATSession (initState c7cfg) ⟨"a", 1, "tcp"⟩ ⟨"b", 2, "tcp"⟩
          "outbound" 0 "t").1.table.map Prod.fst) :=
  ⟨rfl,
    (C7_maxSessions_zero_amended c7cfg ⟨0, 100⟩ ⟨"a", 1, "tcp"⟩ ⟨"b", 2, "tcp"⟩
      "outbound" 0 "t" rfl rfl).1,
    (C7_maxSessions_zero_amended c7cfg ⟨0, 100⟩ ⟨"a", 1, "tcp"⟩ ⟨"b", 2, "tcp"⟩
      "outbound" 0 "t" rfl rfl).2⟩

/-- C9: `Config.Equals` returns true on two configs that agree on site
id, user level and list counts but differ in every rule and range field —
it is strictly coarser than structural equality. -/
theorem C9_equals_ignores_contents :
    configEquals c9a c9b = true ∧
    c9a.siteId = c9b.siteId ∧ c9a.userLevel = c9b.userLevel ∧
    c9a.virtualRanges.length = c9b.virtualRanges.length ∧
    c9a.rules.length = c9b.rules.length ∧
    c9a.rules ≠ c9b.rules ∧ c9a.virtualRanges ≠ c9b.virtualRanges ∧ c9a ≠ c9b := by
  refine ⟨by decide, by decide, by decide, by decide, by decide, by decide, by decide, by decide⟩

/-- C10: on any handler whose `done` channel is still open, the first
`Close` succeeds (returns nil, with the channel closed and the ticker
stopped), and a second `Close` on the resulting handler panics instead of
returning. -/
theorem C10_close_at_most_once (st : HandlerLifecycle) (h : st.doneClosed = false) :
    handlerClose st = Except.ok ⟨true, true⟩ ∧
    ∀ st', handlerClose st = Except.ok st' →
      handlerClose st' = Except.error "close of closed channel" := by
  constructor
  · simp [handlerClose, closeChan, h]
  · intro st' hst
    simp [handlerClose, closeChan, h] at hst
    rw [← hst]
    simp [handlerClose, closeChan]

/-- C10, witnessed at the freshly constructed handler. -/
theorem C10_close_at_most_once_witness :
    (HandlerLifecycle.mk false false).doneClosed = false ∧
    handlerClose ⟨false, false⟩ = Except.ok ⟨true, true⟩ ∧
    handlerClose ⟨true, true⟩ = Except.error "close of closed channel" :=
  ⟨rfl, (C10_close_at_most_once ⟨false, false⟩ rfl).1,
    (C10_close_at_most_once ⟨false, false⟩ rfl).2 ⟨true, true⟩
      (C10_close_at_most_once ⟨false, false⟩ rfl).1⟩

/-! ## Key-list lemmas for the session map and the LRU list -/

/-- Erasing a key from an association list erases it from the key
list. -/
theorem keys_eraseAssoc (id : String) (t : List (String × NATSessionM)) :
    (eraseAssoc id t).map Prod.fst = eraseStr id (t.map Prod.fst) := by
  induction t with
  | nil => rfl
  | cons kv rest ih =>
    obtain ⟨k, w⟩ := kv
    by_cases h : k = id
    · simp [eraseAssoc, eraseStr, h]
    · simp [eraseAssoc, eraseStr, h, ih]

/-- `eraseStr` yields a sublist. -/
theorem eraseStr_sublist (id : String) (l : List String) : (eraseStr id l).Sublist l := by
  induction l with
  | nil => simp [eraseStr]
  | cons x xs ih =>
    by_cases h : x = id
    · simpa [eraseStr, h] using List.sublist_cons_self x xs
    · simpa [eraseStr, h] using ih.cons₂ x

/-- `eraseStr` preserves distinctness. -/
theorem nodup_eraseStr (id : String) {l : List String} (h : l.Nodup) :
    (eraseStr id l).Nodup := (eraseStr_sublist id l).nodup h

/-- On a duplicate-free list, erasing an element removes every
occurrence of it. -/
theorem not_mem_eraseStr_self (id : String) {l : List String} (h : l.Nodup) :
    id ∉ eraseStr id l := by
  induction l with
  | nil => simp [eraseStr]
  | cons x xs ih =>
    rcases List.nodup_cons.mp h with ⟨hx, hxs⟩
    by_cases hd : x = id
    · simpa [eraseStr, hd] using fun contra => hx (hd ▸ contra)
    · simp [eraseStr, hd]
      exact ⟨fun e => hd e.symm, ih hxs⟩

/-- Elements of the erased list come from the original. -/
theorem mem_of_mem_eraseStr {x id : String} {l : List String}
    (h : x ∈ eraseStr id l) : x ∈ l := (eraseStr_sublist id l).mem h

/-- Elements other than the erased one survive. -/
theorem mem_eraseStr_of_ne {x id : String} {l : List String}
    (hx : x ∈ l) (hne : x ≠ id) : x ∈ eraseStr id l := by
  induction l with
  | nil => simp at hx
  | cons y ys ih =>
    rcases List.mem_cons.mp hx with h | h
    · subst h
      simp [eraseStr, hne]
    · by_cases hy : y = id
      · simpa [eraseStr, hy] using h
      · simp [eraseStr, hy]
        exact Or.inr (ih h)

/-- Erasing a present element shortens the list by one. -/
theorem length_eraseStr_of_mem {id : String} {l : List String} (h : id ∈ l) :
    (eraseStr id l).length + 1 = l.length := by
  induction l with
  | nil => simp at h
  | cons x xs ih =>
    by_cases hd : x = id
    · simp [eraseStr, hd]
    · have hm : id ∈ xs := by
        rcases List.mem_cons.mp h with e | e
        · exact absurd e.symm hd
        · exact e
      simp [eraseStr, hd, ← ih hm]

/-- Storing under a key already present leaves the key list unchanged. -/
theorem keys_storeAssoc_mem {id : String} (v : NATSessionM)
    {t : List (String × NATSessionM)} (h : id ∈ t.map Prod.fst) :
    (storeAssoc id v t).map Prod.fst = t.map Prod.fst := by
  induction t with
  | nil => simp at h
  | cons kv rest ih =>
    obtain ⟨k, w⟩ := kv
    by_cases hd : k = id
    · simp [storeAssoc, hd]
    · have hm : id ∈ rest.map Prod.fst := by
        rcases List.mem_cons.mp h with e | e
        · exact absurd e.symm hd
        · exact e
      simp [storeAssoc, hd, ih hm]

/-- Storing under a fresh key appends it to the key list. -/
theorem keys_storeAssoc_not_mem {id : String} (v : NATSessionM)
    {t : List (String × NATSessionM)} (h : id ∉ t.map Prod.fst) :
    (storeAssoc id v t).map Prod.fst = t.map Prod.fst ++ [id] := by
  induction t with
  | nil => simp [storeAssoc]
  | cons kv rest ih =>
    obtain ⟨k, w⟩ := kv
    rw [List.map_cons, List.mem_cons] at h
    push_neg at h
    have hd : k ≠ id := fun e => h.1 e.symm
    simp [storeAssoc, hd, ih h.2]

/-- `storeAssoc` preserves distinctness of the key list. -/
theorem nodup_keys_storeAssoc (id : String) (v : NATSessionM)
    {t : List (String × NATSessionM)} (h : (t.map Prod.fst).Nodup) :
    ((storeAssoc id v t).map Prod.fst).Nodup := by
  by_cases hm : id ∈ t.map Prod.fst
  · rwa [keys_storeAssoc_mem v hm]
  · rw [keys_storeAssoc_not_mem v hm]
    simp [List.nodup_append, h, hm]

/-- `evictOnce` preserves distinctness of the key list. -/
theorem nodup_keys_evictOnce {s : HandlerState} (h : (s.table.map Prod.fst).Nodup) :
    ((evictOnce s).table.map Prod.fst).Nodup := by
  unfold evictOnce
  cases s.lru.getLast? with
  | none => exact h
  | some sid =>
    simp only [keys_eraseAssoc]
    exact nodup_eraseStr sid h

/-- `evictLoop` preserves distinctness of the key list. -/
theorem nodup_keys_evictLoop (n : Nat) {s : HandlerState}
    (h : (s.table.map Prod.fst).Nodup) :
    ((evictLoop n s).table.map Prod.fst).Nodup := by
  induction n generalizing s with
  | zero => exact h
  | succ m ih =>
    unfold evictLoop
    by_cases hc : s.maxSessions ≤ s.activeSessions ∧ 0 < s.lru.length
    · rw [if_pos hc]
      exact ih (nodup_keys_evictOnce h)
    · rw [if_neg hc]
      exact h

/-- `enforceSessionLimits` preserves distinctness of the key list. -/
theorem nodup_keys_enforceSessionLimits {s : HandlerState}
    (h : (s.table.map Prod.fst).Nodup) :
    ((enforceSessionLimits s).table.map Prod.fst).Nodup :=
  nodup_keys_evictLoop _ h

/-- `enforceMemoryLimits` preserves distinctness of the key list. -/
theorem nodup_keys_enforceMemoryLimits {s : HandlerState}
    (h : (s.table.map Prod.fst).Nodup) :
    ((enforceMemoryLimits s).table.map Prod.fst).Nodup := by
  unfold enforceMemoryLimits
  dsimp only
  split
  · split
    · exact nodup_keys_enforceSessionLimits h
    · exact h
  · exact h

/-- C8: when every one of the 5 dial attempts fails, the dial phase makes
exactly 5 attempts, reports failure, and the session created for the flow
is no longer in the session table when it returns — a failed dial leaks
no session entry. -/
theorem C8_dial_failure_removes_session (s : HandlerState) (vd rd : DestinationM)
    (now : Int) (ts : String) (dial : Nat → Bool)
    (hnd : (s.table.map Prod.fst).Nodup)
    (hfail : ∀ i, i < natRetryAttempts → dial i = false) :
    (handleNATOutboundDial s vd rd now ts dial).2 = .dialFailed ∧
    generateSessionID vd rd ts ∉
      ((handleNATOutboundDial s vd rd now ts dial).1.table.map Prod.fst) ∧
    (dialWithRetry dial).2 = natRetryAttempts := by
  have h0 := hfail 0 (by decide)
  have h1 := hfail 1 (by decide)
  have h2 := hfail 2 (by decide)
  have h3 := hfail 3 (by decide)
  have h4 := hfail 4 (by decide)
  have hrun : dialWithRetry dial = (false, 5) := by
    simp [dialWithRetry, natRetryAttempts, runRetryFrom, h0, h1, h2, h3, h4]
  set id := generateSessionID vd rd ts with hid
  set s1 := (createNATSession s vd rd "outbound" now ts).1 with hs1
  have hkeys1 : (s1.table.map Prod.fst).Nodup := by
    rw [hs1, createNATSession_table_eq]
    exact nodup_keys_storeAssoc _ _
      (nodup_keys_enforceSessionLimits (nodup_keys_enforceMemoryLimits hnd))
  have hmem1 : id ∈ s1.table.map Prod.fst := by
    rw [hs1, createNATSession_table_eq]
    exact mem_keys_storeAssoc _ _ _
  have hout : handleNATOutboundDial s vd rd now ts dial =
      (removeSession s1 id, .dialFailed) := by
    simp [handleNATOutboundDial, hrun, ← hs1, ← hid]
  refine ⟨by rw [hout], ?_, by rw [hrun]; rfl⟩
  rw [hout]
  simp only [removeSession, if_pos hmem1, keys_eraseAssoc]
  exact not_mem_eraseStr_self id hkeys1

/-- C8, witnessed on the empty handler with an always-failing dialer. -/
theorem C8_dial_failure_removes_session_witness :
    ((newHandlerState.table.map Prod.fst).Nodup) ∧
    (handleNATOutboundDial newHandlerState ⟨"240.2.2.20", 80, "tcp"⟩
        ⟨"192.168.1.20", 80, "tcp"⟩ 0 "t" (fun _ => false)).2 = .dialFailed ∧
    generateSessionID ⟨"240.2.2.20", 80, "tcp"⟩ ⟨"192.168.1.20", 80, "tcp"⟩ "t" ∉
      ((handleNATOutboundDial newHandlerState ⟨"240.2.2.20", 80, "tcp"⟩
          ⟨"192.168.1.20", 80, "tcp"⟩ 0 "t" (fun _ => false)).1.table.map Prod.fst) :=
  ⟨by decide,
    (C8_dial_failure_removes_session newHandlerState ⟨"240.2.2.20", 80, "tcp"⟩
      ⟨"192.168.1.20", 80, "tcp"⟩ 0 "t" (fun _ => false) (by decide)
      (fun i _ => rfl)).1,
    (C8_dial_failure_removes_session newHandlerState ⟨"240.2.2.20", 80, "tcp"⟩
      ⟨"192.168.1.20", 80, "tcp"⟩ 0 "t" (fun _ => false) (by decide)
      (fun i _ => rfl)).2.1⟩

/-! ## Claim C6: the session-count invariant -/

/-- Membership in an erased duplicate-free list. -/
theorem mem_eraseStr_iff {x id : String} {l : List String} (h : l.Nodup) :
    x ∈ eraseStr id l ↔ x ∈ l ∧ x ≠ id := by
  constructor
  · intro hx
    refine ⟨mem_of_mem_eraseStr hx, ?_⟩
    rintro rfl
    exact not_mem_eraseStr_self x h hx
  · rintro ⟨hx, hne⟩
    exact mem_eraseStr_of_ne hx hne

/-- The last element of a list is a member. -/
theorem mem_of_getLastQ {α : Type} : ∀ {l : List α} {x : α}, l.getLast? = some x → x ∈ l
  | [y], x, h => by
    simp [List.getLast?] at h
    simp [h]
  | y :: z :: ys, x, h => by
    rw [List.getLast?_cons_cons] at h
    exact List.mem_cons_of_mem y (mem_of_getLastQ h)

/-- Erasing a present key shortens an association list by one. -/
theorem length_eraseAssoc_of_mem {id : String} {t : List (String × NATSessionM)}
    (h : id ∈ t.map Prod.fst) : (eraseAssoc id t).length + 1 = t.length := by
  have h1 := length_eraseStr_of_mem h
  rw [← keys_eraseAssoc] at h1
  simpa using h1

/-- `evictOnce` preserves the invariant when the LRU list is non-empty;
the LRU list, the map and the active counter each shrink by one. -/
theorem evictOnce_inv {msT mm0 : Int} {s : HandlerState} (hinv : TableInv msT mm0 s)
    (hne : 0 < s.lru.length) :
    TableInv msT mm0 (evictOnce s) ∧
      (evictOnce s).lru.length + 1 = s.lru.length ∧
      (evictOnce s).maxSessions = s.maxSessions ∧
      (evictOnce s).maxMemoryMB = s.maxMemoryMB ∧
      (evictOnce s).activeSessions = s.activeSessions - 1 := by
  obtain ⟨sid, hsid⟩ : ∃ sid, s.lru.getLast? = some sid := by
    cases hl : s.lru.getLast? with
    | none =>
      rw [List.getLast?_eq_none_iff] at hl
      rw [hl] at hne
      simp at hne
    | some sid => exact ⟨sid, rfl⟩
  have hmemL : sid ∈ s.lru := mem_of_getLastQ hsid
  have hmemK : sid ∈ s.table.map Prod.fst := (hinv.memIff sid).mp hmemL
  have hlen : (eraseStr sid s.lru).length + 1 = s.lru.length := length_eraseStr_of_mem hmemL
  have hlenT : (eraseAssoc sid s.table).length + 1 = s.table.length :=
    length_eraseAssoc_of_mem hmemK
  have heq : evictOnce s =
      { s with lru := eraseStr sid s.lru, table := eraseAssoc sid s.table,
               activeSessions := s.activeSessions - 1 } := by
    unfold evictOnce
    rw [hsid]
  rw [heq]
  refine ⟨⟨nodup_eraseStr sid hinv.lruNodup, ?_, ?_, ?_, ?_, hinv.maxPos, hinv.maxLe,
    hinv.memEq, ?_⟩, hlen, rfl, rfl, rfl⟩
  · rw [keys_eraseAssoc]
    exact nodup_eraseStr sid hinv.keysNodup
  · intro x
    rw [keys_eraseAssoc, mem_eraseStr_iff hinv.lruNodup, mem_eraseStr_iff hinv.keysNodup,
      hinv.memIff x]
  · dsimp only
    have := hinv.lenEq
    omega
  · dsimp only
    have := hinv.activeGe
    omega
  · dsimp only
    have := hinv.sizeLe
    omega

/-- The eviction loop with sufficient fuel preserves the invariant,
leaves the limits unchanged, and reaches its exit condition: the active
count is strictly below the cap or the table is empty. -/
theorem evictLoop_spec (msT mm0 : Int) :
    ∀ (n : Nat) (s : HandlerState), TableInv msT mm0 s → s.lru.length ≤ n →
      TableInv msT mm0 (evictLoop n s) ∧
      (evictLoop n s).maxSessions = s.maxSessions ∧
      (evictLoop n s).maxMemoryMB = s.maxMemoryMB ∧
      ((evictLoop n s).activeSessions < s.maxSessions ∨ (evictLoop n s).table = []) := by
  intro n
  induction n with
  | zero =>
    intro s hinv hn
    have hlru : s.lru = [] := List.eq_nil_of_length_eq_zero (by omega)
    have htab : s.table = [] := by
      have := hinv.lenEq
      rw [hlru] at this
      exact List.eq_nil_of_length_eq_zero (by simpa using this.symm)
    exact ⟨hinv, rfl, rfl, Or.inr htab⟩
  | succ m ih =>
    intro s hinv hn
    by_cases hc : s.maxSessions ≤ s.activeSessions ∧ 0 < s.lru.length
    · have hstep := evictOnce_inv hinv hc.2
      have hfuel : (evictOnce s).lru.length ≤ m := by omega
      have hrec := ih (evictOnce s) hstep.1 hfuel
      have hstepEq : evictLoop (m + 1) s =
          if s.maxSessions ≤ s.activeSessions ∧ 0 < s.lru.length
          then evictLoop m (evictOnce s) else s := rfl
      have heq : evictLoop (m + 1) s = evictLoop m (evictOnce s) := by
        rw [hstepEq, if_pos hc]
      rw [heq]
      refine ⟨hrec.1, ?_, ?_, ?_⟩
      · rw [hrec.2.1, hstep.2.2.1]
      · rw [hrec.2.2.1, hstep.2.2.2.1]
      · rcases hrec.2.2.2 with h | h
        · exact Or.inl (by rw [hstep.2.2.1] at h; exact h)
        · exact Or.inr h
    · have hstepEq : evictLoop (m + 1) s =
          if s.maxSessions ≤ s.activeSessions ∧ 0 < s.lru.length
          then evictLoop m (evictOnce s) else s := rfl
      have heq : evictLoop (m + 1) s = s := by
        rw [hstepEq, if_neg hc]
      rw [heq]
      refine ⟨hinv, rfl, rfl, ?_⟩
      push_neg at hc
      by_cases ha : s.maxSessions ≤ s.activeSessions
      · have hlen := hc ha
        have hlru : s.lru = [] := List.eq_nil_of_length_eq_zero (by omega)
        have := hinv.lenEq
        rw [hlru] at this
        exact Or.inr (List.eq_nil_of_length_eq_zero (by simpa using this.symm))
      · exact Or.inl (by omega)

/-- `enforceSessionLimits` preserves the invariant, keeps the limits, and
establishes its exit condition. -/
theorem enforceSessionLimits_spec {msT mm0 : Int} {s : HandlerState}
    (hinv : TableInv msT mm0 s) :
    TableInv msT mm0 (enforceSessionLimits s) ∧
    (enforceSessionLimits s).maxSessions = s.maxSessions ∧
    (enforceSessionLimits s).maxMemoryMB = s.maxMemoryMB ∧
    ((enforceSessionLimits s).activeSessions < s.maxSessions ∨
      (enforceSessionLimits s).table = []) :=
  evictLoop_spec msT mm0 s.lru.length s hinv le_rfl

/-- `enforceMemoryLimits` preserves the invariant and caps `maxSessions`
by the memory-derived bound. -/
theorem enforceMemoryLimits_spec {msT mm0 : Int} {s : HandlerState}
    (hinv : TableInv msT mm0 s) (hmm : 1 ≤ mm0) :
    TableInv msT mm0 (enforceMemoryLimits s) ∧
    (enforceMemoryLimits s).maxSessions ≤ s.maxSessions ∧
    (enforceMemoryLimits s).maxSessions ≤ mm0 * 1024 * 1024 / 2048 := by
  have hbound : 1 ≤ mm0 * 1024 * 1024 / 2048 := by omega
  unfold enforceMemoryLimits
  dsimp only
  by_cases hlt : s.maxMemoryMB * 1024 * 1024 / 2048 < s.maxSessions
  · rw [if_pos hlt]
    have hmem := hinv.memEq
    set s' : HandlerState := { s with maxSessions := s.maxMemoryMB * 1024 * 1024 / 2048 }
      with hs'
    have hinv' : TableInv msT mm0 s' := by
      refine ⟨hinv.lruNodup, hinv.keysNodup, hinv.memIff, hinv.lenEq, hinv.activeGe,
        ?_, ?_, hinv.memEq, hinv.sizeLe⟩
      · show 1 ≤ s.maxMemoryMB * 1024 * 1024 / 2048
        rw [hmem]
        exact hbound
      · show s.maxMemoryMB * 1024 * 1024 / 2048 ≤ msT
        have := hinv.maxLe
        omega
    by_cases hact : s'.maxSessions ≤ s'.activeSessions
    · rw [if_pos hact]
      have hs := enforceSessionLimits_spec hinv'
      refine ⟨hs.1, ?_, ?_⟩
      · rw [hs.2.1]
        show s.maxMemoryMB * 1024 * 1024 / 2048 ≤ s.maxSessions
        omega
      · rw [hs.2.1]
        show s.maxMemoryMB * 1024 * 1024 / 2048 ≤ mm0 * 1024 * 1024 / 2048
        rw [hmem]
    · rw [if_neg hact]
      refine ⟨hinv', ?_, ?_⟩
      · show s.maxMemoryMB * 1024 * 1024 / 2048 ≤ s.maxSessions
        omega
      · show s.maxMemoryMB * 1024 * 1024 / 2048 ≤ mm0 * 1024 * 1024 / 2048
        rw [hmem]
  · rw [if_neg hlt]
    have := hinv.memEq
    exact ⟨hinv, le_rfl, by omega⟩

/-- Storing under a present key keeps the map size. -/
theorem length_storeAssoc_mem {id : String} (v : NATSessionM)
    {t : List (String × NATSessionM)} (h : id ∈ t.map Prod.fst) :
    (storeAssoc id v t).length = t.length := by
  have hc := congrArg List.length (keys_storeAssoc_mem v h)
  simpa using hc

/-- Storing under a fresh key grows the map by one. -/
theorem length_storeAssoc_not_mem {id : String} (v : NATSessionM)
    {t : List (String × NATSessionM)} (h : id ∉ t.map Prod.fst) :
    (storeAssoc id v t).length = t.length + 1 := by
  have hc := congrArg List.length (keys_storeAssoc_not_mem v h)
  simpa using hc

/-- The state after `createNATSession` when the new id is already in the
LRU list (move-to-front). -/
theorem createNATSession_eq_mem (s : HandlerState) (vd rd : DestinationM)
    (dir : String) (now : Int) (ts : String)
    (hmem : generateSessionID vd rd ts ∈ (enforceSessionLimits (enforceMemoryLimits s)).lru) :
    (createNATSession s vd rd dir now ts).1 =
      { table := storeAssoc (generateSessionID vd rd ts)
          { protocol := vd.network, virtualDest := vd, realDest := rd,
            createdAt := now, lastActivity := now, direction := dir }
          (enforceSessionLimits (enforceMemoryLimits s)).table,
        lru := generateSessionID vd rd ts ::
          eraseStr (generateSessionID vd rd ts)
            (enforceSessionLimits (enforceMemoryLimits s)).lru,
        activeSessions := (enforceSessionLimits (enforceMemoryLimits s)).activeSessions + 1,
        totalSessions := (enforceSessionLimits (enforceMemoryLimits s)).totalSessions + 1,
        maxSessions := (enforceSessionLimits (enforceMemoryLimits s)).maxSessions,
        maxMemoryMB := (enforceSessionLimits (enforceMemoryLimits s)).maxMemoryMB } := by
  unfold createNATSession
  dsimp only
  rw [if_pos hmem]

/-- The state after `createNATSession` when the new id is not yet in the
LRU list (push-front). -/
theorem createNATSession_eq_not_mem (s : HandlerState) (vd rd : DestinationM)
    (dir : String) (now : Int) (ts : String)
    (hmem : generateSessionID vd rd ts ∉ (enforceSessionLimits (enforceMemoryLimits s)).lru) :
    (createNATSession s vd rd dir now ts).1 =
      { table := storeAssoc (generateSessionID vd rd ts)
          { protocol := vd.network, virtualDest := vd, realDest := rd,
            createdAt := now, lastActivity := now, direction := dir }
          (enforceSessionLimits (enforceMemoryLimits s)).table,
        lru := generateSessionID vd rd ts ::
          (enforceSessionLimits (enforceMemoryLimits s)).lru,
        activeSessions := (enforceSessionLimits (enforceMemoryLimits s)).activeSessions + 1,
        totalSessions := (enforceSessionLimits (enforceMemoryLimits s)).totalSessions + 1,
        maxSessions := (enforceSessionLimits (enforceMemoryLimits s)).maxSessions,
        maxMemoryMB := (enforceSessionLimits (enforceMemoryLimits s)).maxMemoryMB } := by
  unfold createNATSession
  dsimp only
  rw [if_neg hmem]

/-- `createNATSession` preserves the invariant: eviction first makes
room, so the stored session keeps the map within both caps. -/
theorem createNATSession_inv {msT mm0 : Int} (s : HandlerState) (vd rd : DestinationM)
    (dir : String) (now : Int) (ts : String)
    (hinv : TableInv msT mm0 s) (hmm : 1 ≤ mm0) :
    TableInv msT mm0 (createNATSession s vd rd dir now ts).1 := by
  have hm := enforceMemoryLimits_spec hinv hmm
  have hsl := enforceSessionLimits_spec hm.1
  have inv2 : TableInv msT mm0 (enforceSessionLimits (enforceMemoryLimits s)) := hsl.1
  have hmax2le : (enforceSessionLimits (enforceMemoryLimits s)).maxSessions ≤
      min msT (mm0 * 1024 * 1024 / 2048) := by
    have h1 := hsl.2.1
    have h2 := hm.2.1
    have h3 := hm.2.2
    have h4 := hinv.maxLe
    omega
  have hexit := hsl.2.2.2
  have hmaxeq := hsl.2.1
  set id := generateSessionID vd rd ts with hid
  by_cases hmem : id ∈ (enforceSessionLimits (enforceMemoryLimits s)).lru
  · have hkeymem : id ∈ (enforceSessionLimits (enforceMemoryLimits s)).table.map Prod.fst :=
      (inv2.memIff id).mp hmem
    rw [createNATSession_eq_mem s vd rd dir now ts hmem, ← hid]
    refine ⟨?_, ?_, ?_, ?_, ?_, inv2.maxPos, inv2.maxLe, inv2.memEq, ?_⟩
    · exact List.nodup_cons.mpr
        ⟨not_mem_eraseStr_self id inv2.lruNodup, nodup_eraseStr id inv2.lruNodup⟩
    · dsimp only
      rw [keys_storeAssoc_mem _ hkeymem]
      exact inv2.keysNodup
    · intro x
      dsimp only
      rw [keys_storeAssoc_mem _ hkeymem]
      constructor
      · intro hx
        rcases List.mem_cons.mp hx with h | h
        · exact h ▸ hkeymem
        · exact (inv2.memIff x).mp (mem_of_mem_eraseStr h)
      · intro hx
        by_cases hxi : x = id
        · exact hxi ▸ List.mem_cons_self _ _
        · exact List.mem_cons_of_mem _ (mem_eraseStr_of_ne ((inv2.memIff x).mpr hx) hxi)
    · dsimp only
      have h1 := length_eraseStr_of_mem hmem
      have h2 := inv2.lenEq
      rw [List.length_cons, length_storeAssoc_mem _ hkeymem]
      omega
    · dsimp only
      rw [length_storeAssoc_mem _ hkeymem]
      have := inv2.activeGe
      omega
    · dsimp only
      rw [length_storeAssoc_mem _ hkeymem]
      have := inv2.sizeLe
      omega
  · have hkeynot : id ∉ (enforceSessionLimits (enforceMemoryLimits s)).table.map Prod.fst :=
      fun hx => hmem ((inv2.memIff id).mpr hx)
    rw [createNATSession_eq_not_mem s vd rd dir now ts hmem, ← hid]
    refine ⟨?_, ?_, ?_, ?_, ?_, inv2.maxPos, inv2.maxLe, inv2.memEq, ?_⟩
    · exact List.nodup_cons.mpr ⟨hmem, inv2.lruNodup⟩
    · dsimp only
      exact nodup_keys_storeAssoc _ _ inv2.keysNodup
    · intro x
      dsimp only
      rw [keys_storeAssoc_not_mem _ hkeynot]
      rw [List.mem_cons, List.mem_append, List.mem_singleton, inv2.memIff x]
      tauto
    · dsimp only
      rw [List.length_cons, length_storeAssoc_not_mem _ hkeynot]
      have := inv2.lenEq
      omega
    · dsimp only
      rw [length_storeAssoc_not_mem _ hkeynot]
      have := inv2.activeGe
      omega
    · dsimp only
      rw [length_storeAssoc_not_mem _ hkeynot]
      have h1 := inv2.activeGe
      have h2 := inv2.maxPos
      rcases hexit with h | h
      · rw [← hmaxeq] at h
        omega
      · rw [h]
        simp only [List.length_nil]
        omega

/-- `removeSession` preserves the invariant. -/
theorem removeSession_inv {msT mm0 : Int} {s : HandlerState}
    (hinv : TableInv msT mm0 s) (id : String) :
    TableInv msT mm0 (removeSession s id) := by
  unfold removeSession
  by_cases h : id ∈ s.table.map Prod.fst
  · rw [if_pos h]
    have hl : id ∈ s.lru := (hinv.memIff id).mpr h
    have hlen := length_eraseStr_of_mem hl
    have hlenT := length_eraseAssoc_of_mem h
    refine ⟨nodup_eraseStr id hinv.lruNodup, ?_, ?_, ?_, ?_, hinv.maxPos, hinv.maxLe,
      hinv.memEq, ?_⟩
    · rw [keys_eraseAssoc]
      exact nodup_eraseStr id hinv.keysNodup
    · intro x
      rw [keys_eraseAssoc, mem_eraseStr_iff hinv.lruNodup, mem_eraseStr_iff hinv.keysNodup,
        hinv.memIff x]
    · dsimp only
      have := hinv.lenEq
      omega
    · dsimp only
      have := hinv.activeGe
      omega
    · dsimp only
      have := hinv.sizeLe
      omega
  · rw [if_neg h]
    exact hinv

/-- Updating a session record in place keeps the key list. -/
theorem keys_touch_map (id : String) (now : Int) (t : List (String × NATSessionM)) :
    (t.map (fun kv =>
      if kv.1 = id then (kv.1, { kv.2 with lastActivity := now }) else kv)).map Prod.fst =
      t.map Prod.fst := by
  induction t with
  | nil => rfl
  | cons kv rest ih =>
    by_cases h : kv.1 = id <;> simp [h, ih]

/-- `touchSession` preserves the invariant. -/
theorem touchSession_inv {msT mm0 : Int} {s : HandlerState}
    (hinv : TableInv msT mm0 s) (id : String) (now : Int) :
    TableInv msT mm0 (touchSession s id now) := by
  unfold touchSession
  by_cases h : id ∈ s.table.map Prod.fst
  · rw [if_pos h]
    have hkeys := keys_touch_map id now s.table
    have hlen : (s.table.map (fun kv =>
        if kv.1 = id then (kv.1, { kv.2 with lastActivity := now }) else kv)).length =
        s.table.length := List.length_map _ _
    by_cases hl : id ∈ s.lru
    · refine ⟨?_, ?_, ?_, ?_, ?_, hinv.maxPos, hinv.maxLe, hinv.memEq, ?_⟩
      · dsimp only
        rw [if_pos hl]
        exact List.nodup_cons.mpr
          ⟨not_mem_eraseStr_self id hinv.lruNodup, nodup_eraseStr id hinv.lruNodup⟩
      · dsimp only
        rw [hkeys]
        exact hinv.keysNodup
      · intro x
        dsimp only
        rw [if_pos hl, hkeys]
        constructor
        · intro hx
          rcases List.mem_cons.mp hx with hx | hx
          · exact hx ▸ h
          · exact (hinv.memIff x).mp (mem_of_mem_eraseStr hx)
        · intro hx
          by_cases hxi : x = id
          · exact hxi ▸ List.mem_cons_self _ _
          · exact List.mem_cons_of_mem _ (mem_eraseStr_of_ne ((hinv.memIff x).mpr hx) hxi)
      · dsimp only
        rw [if_pos hl, List.length_cons, hlen]
        have h1 := length_eraseStr_of_mem hl
        have h2 := hinv.lenEq
        omega
      · dsimp only
        rw [hlen]
        exact hinv.activeGe
      · dsimp only
        rw [hlen]
        exact hinv.sizeLe
    · refine ⟨?_, ?_, ?_, ?_, ?_, hinv.maxPos, hinv.maxLe, hinv.memEq, ?_⟩
      · dsimp only
        rw [if_neg hl]
        exact hinv.lruNodup
      · dsimp only
        rw [hkeys]
        exact hinv.keysNodup
      · intro x
        dsimp only
        rw [if_neg hl, hkeys]
        exact hinv.memIff x
      · dsimp only
        rw [if_neg hl, hlen]
        exact hinv.lenEq
      · dsimp only
        rw [hlen]
        exact hinv.activeGe
      · dsimp only
        rw [hlen]
        exact hinv.sizeLe
  · rw [if_neg h]
    exact hinv

/-- Folding `removeSession` over any id list preserves the invariant. -/
theorem foldl_removeSession_inv {msT mm0 : Int} (ids : List String) :
    ∀ s : HandlerState, TableInv msT mm0 s →
      TableInv msT mm0 (ids.foldl removeSession s) := by
  induction ids with
  | nil => exact fun s hinv => hinv
  | cons id rest ih => exact fun s hinv => ih _ (removeSession_inv hinv id)

/-- The sweep preserves the invariant. -/
theorem cleanupExpiredSessions_inv {msT mm0 : Int} (cfg : Config) (now : Int)
    {s : HandlerState} (hinv : TableInv msT mm0 s) :
    TableInv msT mm0 (cleanupExpiredSessions cfg now s) :=
  foldl_removeSession_inv _ s hinv

/-- Every operation preserves the invariant. -/
theorem applyOp_inv {msT mm0 : Int} (cfg : Config) {s : HandlerState}
    (hinv : TableInv msT mm0 s) (hmm : 1 ≤ mm0) (op : TableOp) :
    TableInv msT mm0 (applyOp cfg s op) := by
  cases op with
  | create vd rd dir now ts => exact createNATSession_inv s vd rd dir now ts hinv hmm
  | touch id now => exact touchSession_inv hinv id now
  | remove id => exact removeSession_inv hinv id
  | sweep now => exact cleanupExpiredSessions_inv cfg now hinv

/-- Any finite operation sequence preserves the invariant. -/
theorem applyOps_inv {msT mm0 : Int} (cfg : Config) (ops : List TableOp)
    (hmm : 1 ≤ mm0) :
    ∀ s : HandlerState, TableInv msT mm0 s → TableInv msT mm0 (applyOps cfg s ops) := by
  induction ops with
  | nil => exact fun s hinv => hinv
  | cons op rest ih =>
    intro s hinv
    exact ih _ (applyOp_inv cfg hinv hmm op)

/-- The freshly initialised handler satisfies the invariant at the
configured limits (applied by `Init` because they are positive). -/
theorem initState_inv (cfg : Config) (l : ResourceLimitsCfg)
    (hl : cfg.limits = some l) (hms : 0 < l.maxSessions) (hmm : 0 < l.maxMemoryMb) :
    TableInv (l.maxSessions : Int) (l.maxMemoryMb : Int) (initState cfg) := by
  have h1 : initState cfg =
      { table := [], lru := [], activeSessions := 0, totalSessions := 0,
        maxSessions := (l.maxSessions : Int), maxMemoryMB := (l.maxMemoryMb : Int) } := by
    simp [initState, hl, newHandlerState, hms, hmm]
  rw [h1]
  have hms' : (1 : Int) ≤ (l.maxSessions : Int) := by exact_mod_cast hms
  have hmm' : (1 : Int) ≤ (l.maxMemoryMb : Int) := by exact_mod_cast hmm
  refine ⟨List.nodup_nil, List.nodup_nil, fun x => by simp, rfl, by simp, hms', le_rfl,
    rfl, ?_⟩
  simp only [List.length_nil, Int.ofNat_zero, Nat.cast_zero]
  omega

/-- C6: after any finite sequence of create/touch/remove/sweep operations
from the initialised handler, the session map holds at most
`min(maxSessions, maxMemoryMB·1MiB/2KiB)` entries. -/
theorem C6_session_table_bounded (cfg : Config) (l : ResourceLimitsCfg)
    (ops : List TableOp) (hl : cfg.limits = some l)
    (hms : 0 < l.maxSessions) (hmm : 0 < l.maxMemoryMb) :
    ((applyOps cfg (initState cfg) ops).table.length : Int) ≤
      min (l.maxSessions : Int) ((l.maxMemoryMb : Int) * 1024 * 1024 / 2048) := by
  have hmm' : (1 : Int) ≤ (l.maxMemoryMb : Int) := by exact_mod_cast hmm
  exact (applyOps_inv cfg ops hmm' (initState cfg)
    (initState_inv cfg l hl hms hmm)).sizeLe

/-- C6, witnessed on two successive creates under a one-session cap. -/
theorem C6_session_table_bounded_witness :
    c6cfg.limits = some ⟨1, 1⟩ ∧ 0 < (1 : Nat) ∧
    ((applyOps c6cfg (initState c6cfg)
        [TableOp.create ⟨"a", 1, "tcp"⟩ ⟨"b", 2, "tcp"⟩ "outbound" 0 "t1",
         TableOp.create ⟨"c", 3, "tcp"⟩ ⟨"d", 4, "tcp"⟩ "outbound" 5 "t2"]).table.length : Int) ≤
      min ((1 : Nat) : Int) (((1 : Nat) : Int) * 1024 * 1024 / 2048) :=
  ⟨rfl, by decide,
    C6_session_table_bounded c6cfg ⟨1, 1⟩
      [TableOp.create ⟨"a", 1, "tcp"⟩ ⟨"b", 2, "tcp"⟩ "outbound" 0 "t1",
       TableOp.create ⟨"c", 3, "tcp"⟩ ⟨"d", 4, "tcp"⟩ "outbound" 5 "t2"]
      rfl (by decide) (by decide)⟩

/-! ## Toward the amended C2: algebra of the split and parse primitives -/

/-- A one-character `containsStr` is membership. -/
theorem containsStr_single_iff (c : Char) (l : List Char) :
    containsStr [c] l = true ↔ c ∈ l := by
  induction l with
  | nil => simp [containsStr]
  | cons x xs ih => simp [containsStr, List.isPrefixOf, ih]

/-- Absent character: `containsStr` is false. -/
theorem containsStr_single_false (c : Char) {l : List Char} (h : c ∉ l) :
    containsStr [c] l = false := by
  cases hb : containsStr [c] l with
  | false => rfl
  | true => exact absurd ((containsStr_single_iff c l).mp hb) h

/-- Present character: `containsStr` is true. -/
theorem containsStr_single_true (c : Char) {l : List Char} (h : c ∈ l) :
    containsStr [c] l = true := (containsStr_single_iff c l).mpr h

/-- A non-colon head does not create a double colon. -/
theorem hasDCb_cons_ne {x : Char} (hx : x ≠ ':') (xs : List Char) :
    hasDCb (x :: xs) = hasDCb xs := by
  simp [hasDCb, hx]

/-- A colon followed by a non-colon does not create a double colon. -/
theorem hasDCb_cons_colon_ne {b : Char} (hb : b ≠ ':') (bs : List Char) :
    hasDCb (':' :: b :: bs) = hasDCb (b :: bs) := by
  simp [hasDCb, hb]

/-- A colon-free list has no double colon. -/
theorem hasDCb_noColon {l : List Char} (h : ∀ c ∈ l, c ≠ ':') : hasDCb l = false := by
  induction l with
  | nil => rfl
  | cons x xs ih =>
    rw [hasDCb_cons_ne (h x (List.mem_cons_self x xs))]
    exact ih (fun c hc => h c (List.mem_cons_of_mem x hc))

/-- Two colon-free segments around a single colon have no double colon,
provided the left segment is non-empty. -/
theorem hasDCb_sep (A B : List Char) (hA : ∀ c ∈ A, c ≠ ':')
    (hB : ∀ c ∈ B, c ≠ ':') (hAne : A ≠ []) : hasDCb (A ++ ':' :: B) = false := by
  induction A with
  | nil => exact absurd rfl hAne
  | cons a A' ih =>
    have ha : a ≠ ':' := hA a (List.mem_cons_self a A')
    rw [List.cons_append]
    cases A' with
    | nil =>
      rw [List.nil_append, hasDCb_cons_ne ha]
      cases B with
      | nil => rfl
      | cons b bs =>
        have hb : b ≠ ':' := hB b (List.mem_cons_self b bs)
        rw [hasDCb_cons_colon_ne hb]
        exact hasDCb_noColon hB
    | cons a' A'' =>
      rw [show (a' :: A'') ++ ':' :: B = a' :: (A'' ++ ':' :: B) from rfl,
        hasDCb_cons_ne ha]
      exact ih (fun c hc => hA c (List.mem_cons_of_mem a hc)) (by simp)

/-- Unfolding equations for `splitCC`. -/
theorem splitCC_nil (acc : List Char) : splitCC acc [] = [acc.reverse] := rfl

/-- `splitCC` on a singleton. -/
theorem splitCC_one (acc : List Char) (x : Char) : splitCC acc [x] = [(x :: acc).reverse] := rfl

/-- `splitCC` looks at the first two characters. -/
theorem splitCC_pair (acc : List Char) (x y : Char) (xs : List Char) :
    splitCC acc (x :: y :: xs) =
      if x = ':' ∧ y = ':' then acc.reverse :: splitCC [] xs
      else splitCC (x :: acc) (y :: xs) := rfl

/-- A list with no double colon is one single field. -/
theorem splitCC_noDC : ∀ (T : List Char), hasDCb T = false →
    ∀ acc, splitCC acc T = [acc.reverse ++ T] := by
  intro T
  induction T with
  | nil => intro _ acc; simp [splitCC_nil]
  | cons x rest ih =>
    intro h acc
    cases rest with
    | nil => simp [splitCC_one]
    | cons y xs =>
      have hxy : ¬(x = ':' ∧ y = ':') := by
        rintro ⟨rfl, rfl⟩
        simp [hasDCb] at h
      rw [splitCC_pair, if_neg hxy]
      have h' : hasDCb (y :: xs) = false := by
        by_cases hx : x = ':'
        · subst hx
          have hy : y ≠ ':' := fun e => hxy ⟨rfl, e⟩
          rwa [hasDCb_cons_colon_ne hy] at h
        · rwa [hasDCb_cons_ne hx] at h
      rw [ih h' (x :: acc)]
      simp

/-- Scanning through a clean prefix, `splitCC` cuts exactly at the first
double colon. -/
theorem splitCC_through : ∀ (P : List Char), hasDCb P = false →
    P.getLast? ≠ some ':' →
    ∀ acc T, splitCC acc (P ++ ':' :: ':' :: T) = (acc.reverse ++ P) :: splitCC [] T := by
  intro P
  induction P with
  | nil =>
    intro _ _ acc T
    rw [List.nil_append, splitCC_pair, if_pos ⟨rfl, rfl⟩]
    simp
  | cons a P' ih =>
    intro hdc hlast acc T
    rw [List.cons_append]
    cases P' with
    | nil =>
      have ha : a ≠ ':' := by
        intro e
        exact hlast (by simp [e])
      rw [List.nil_append, splitCC_pair, if_neg (fun hc => ha hc.1),
        splitCC_pair, if_pos ⟨rfl, rfl⟩]
      simp
    | cons b P'' =>
      have hab : ¬(a = ':' ∧ b = ':') := by
        rintro ⟨rfl, rfl⟩
        simp [hasDCb] at hdc
      have hdc' : hasDCb (b :: P'') = false := by
        by_cases hx : a = ':'
        · subst hx
          have hb : b ≠ ':' := fun e => hab ⟨rfl, e⟩
          rwa [hasDCb_cons_colon_ne hb] at hdc
        · rwa [hasDCb_cons_ne hx] at hdc
      have hlast' : (b :: P'').getLast? ≠ some ':' := by
        rwa [List.getLast?_cons_cons] at hlast
      rw [show (b :: P'') ++ ':' :: ':' :: T = b :: (P'' ++ ':' :: ':' :: T) from rfl,
        splitCC_pair, if_neg hab,
        show (b :: (P'' ++ ':' :: ':' :: T)) = (b :: P'') ++ ':' :: ':' :: T from rfl,
        ih hdc' hlast' (a :: acc) T]
      simp

/-- Unfolding equation for `splitChAux`. -/
theorem splitChAux_cons (c : Char) (acc : List Char) (x : Char) (xs : List Char) :
    splitChAux c acc (x :: xs) =
      if x = c then acc.reverse :: splitChAux c [] xs
      else splitChAux c (x :: acc) xs := rfl

/-- `splitChAux` scans through a clean segment up to the separator. -/
theorem splitChAux_clean (c : Char) : ∀ (l1 : List Char), (∀ a ∈ l1, a ≠ c) →
    ∀ acc l2, splitChAux c acc (l1 ++ c :: l2) = (acc.reverse ++ l1) :: splitChAux c [] l2 := by
  intro l1
  induction l1 with
  | nil =>
    intro _ acc l2
    rw [List.nil_append, splitChAux_cons, if_pos rfl]
    simp
  | cons a l1' ih =>
    intro h acc l2
    have ha : a ≠ c := h a (List.mem_cons_self a l1')
    rw [List.cons_append, splitChAux_cons, if_neg ha,
      ih (fun b hb => h b (List.mem_cons_of_mem a hb)) (a :: acc) l2]
    simp

/-- A clean list is one single field. -/
theorem splitChAux_all (c : Char) : ∀ (l : List Char), (∀ a ∈ l, a ≠ c) →
    ∀ acc, splitChAux c acc l = [acc.reverse ++ l] := by
  intro l
  induction l with
  | nil => intro _ acc; simp [splitChAux]
  | cons a l' ih =>
    intro h acc
    have ha : a ≠ c := h a (List.mem_cons_self a l')
    rw [splitChAux_cons, if_neg ha, ih (fun b hb => h b (List.mem_cons_of_mem a hb)) (a :: acc)]
    simp

/-- Splitting two clean segments around one separator. -/
theorem splitCh_two_fields (g1 g2 : List Char) (h1 : ∀ a ∈ g1, a ≠ ':')
    (h2 : ∀ a ∈ g2, a ≠ ':') : splitCh ':' (g1 ++ ':' :: g2) = [g1, g2] := by
  unfold splitCh
  rw [splitChAux_clean ':' g1 h1 [] g2, splitChAux_all ':' g2 h2 []]
  simp

/-- A singleton prefix test reads the head. -/
theorem isPrefixOf_single_iff (c : Char) (m : List Char) :
    [c].isPrefixOf m = true ↔ m.head? = some c := by
  cases m with
  | nil => simp [List.isPrefixOf]
  | cons x xs =>
    simp [List.isPrefixOf]
    exact eq_comm

/-- A singleton suffix test reads the last element. -/
theorem isSuffixOf_single_iff (c : Char) (l : List Char) :
    List.isSuffixOf [c] l = true ↔ l.getLast? = some c := by
  unfold List.isSuffixOf
  rw [show ([c] : List Char).reverse = [c] from rfl, isPrefixOf_single_iff,
    List.head?_reverse]

/-- A singleton suffix test is false when the last element differs. -/
theorem isSuffixOf_single_false {c z : Char} {l : List Char}
    (hz : l.getLast? = some z) (hne : z ≠ c) : List.isSuffixOf [c] l = false := by
  cases hb : List.isSuffixOf [c] l with
  | false => rfl
  | true =>
    have := (isSuffixOf_single_iff c l).mp hb
    rw [hz] at this
    exact absurd (Option.some.injEq _ _ ▸ this) hne

/-- Every hexadecimal digit value is at most 15. -/
theorem hexVal_le_15 {c : Char} {v : Nat} (h : hexVal c = some v) : v ≤ 15 := by
  unfold hexVal at h
  split at h
  · rename_i h1
    injection h with h
    omega
  · split at h
    · rename_i h2
      injection h with h
      omega
    · split at h
      · rename_i h3
        injection h with h
        omega
      · exact absurd h (by simp)

/-- A hexadecimal digit is none of the separator characters. -/
theorem hexDit_ne_of (c : Char) (h : isHexDit c = true) :
    c ≠ ':' ∧ c ≠ '.' ∧ c ≠ ']' ∧ c ≠ '-' ∧ c ≠ '+' := by
  refine ⟨?_, ?_, ?_, ?_, ?_⟩ <;> rintro rfl <;> exact absurd h (by decide)

/-- `parseHexCore` on all-hex input is the fold of the digit values. -/
theorem parseHexCore_digits : ∀ (l : List Char), (∀ c ∈ l, isHexDit c = true) →
    ∀ acc, parseHexCore l acc =
      some (l.foldl (fun a c => a * 16 + (hexVal c).getD 0) acc) := by
  intro l
  induction l with
  | nil => intro _ acc; rfl
  | cons c cs ih =>
    intro h acc
    obtain ⟨v, hv⟩ := Option.isSome_iff_exists.mp (h c (List.mem_cons_self c cs))
    simp only [parseHexCore, hv, List.foldl_cons, Option.getD_some]
    exact ih (fun b hb => h b (List.mem_cons_of_mem c hb)) (acc * 16 + v)

/-- Value bound for the hex fold. -/
theorem foldl_hex_lt : ∀ (l : List Char), (∀ c ∈ l, isHexDit c = true) →
    ∀ acc, l.foldl (fun a c => a * 16 + (hexVal c).getD 0) acc < (acc + 1) * 16 ^ l.length := by
  intro l
  induction l with
  | nil =>
    intro _ acc
    simpa using Nat.lt_succ_self acc
  | cons c cs ih =>
    intro h acc
    obtain ⟨v, hv⟩ := Option.isSome_iff_exists.mp (h c (List.mem_cons_self c cs))
    have hvle : v ≤ 15 := hexVal_le_15 hv
    have hrec := ih (fun b hb => h b (List.mem_cons_of_mem c hb)) (acc * 16 + v)
    have h1 : acc * 16 + v + 1 ≤ (acc + 1) * 16 := by omega
    have h2 : (acc * 16 + v + 1) * 16 ^ cs.length ≤ ((acc + 1) * 16) * 16 ^ cs.length :=
      Nat.mul_le_mul_right _ h1
    have h3 : ((acc + 1) * 16) * 16 ^ cs.length = (acc + 1) * 16 ^ (cs.length + 1) := by
      ring
    simp only [List.foldl_cons, hv, Option.getD_some, List.length_cons]
    calc cs.foldl (fun a c => a * 16 + (hexVal c).getD 0) (acc * 16 + v)
        < (acc * 16 + v + 1) * 16 ^ cs.length := hrec
      _ ≤ (acc + 1) * 16 ^ (cs.length + 1) := h3 ▸ h2

/-- `parseIntHex32` on one to four hex digits yields their value. -/
theorem parseIntHex32_digits {l : List Char} (hne : l ≠ [])
    (h : ∀ c ∈ l, isHexDit c = true) (hlen : l.length ≤ 4) :
    parseIntHex32 l = some ((hexN l : Nat) : Int) := by
  cases l with
  | nil => exact absurd rfl hne
  | cons c cs =>
    have hc5 := hexDit_ne_of c (h c (List.mem_cons_self c cs))
    have hsign : ¬((c :: cs).head? = some '-' ∨ (c :: cs).head? = some '+') := by
      simp [hc5.2.2.2.1, hc5.2.2.2.2]
    have hbound : (c :: cs).foldl (fun a c => a * 16 + (hexVal c).getD 0) 0 ≤ 2 ^ 31 - 1 := by
      have hlt := foldl_hex_lt (c :: cs) h 0
      have hpow : (16 : Nat) ^ (c :: cs).length ≤ 16 ^ 4 :=
        Nat.pow_le_pow_right (by omega) hlen
      omega
    unfold parseIntHex32
    rw [if_neg hsign]
    simp only [List.head?_cons]
    rw [parseHexCore_digits (c :: cs) h 0]
    simp only [hexN]
    have hnegf : decide ((c :: cs).head? = some '-') = false := by
      simp [hc5.2.2.2.1]
    simp only [List.head?_cons] at hnegf
    simp [hnegf, hbound]
    rw [if_neg hc5.2.2.2.1]
    have hbound' : List.foldl (fun a c => a * 16 + (hexVal c).getD 0)
        ((hexVal c).getD 0) cs ≤ 2147483647 := by
      simp only [List.foldl_cons, Nat.zero_mul, Nat.zero_add] at hbound
      omega
    rw [if_pos hbound']

/-- `tryConvert` on one to four hex digits renders their value in
decimal. -/
theorem tryConvert_digits {l : List Char} (hne : l ≠ [])
    (h : ∀ c ∈ l, isHexDit c = true) (hlen : l.length ≤ 4) :
    tryConvert l = decRepr (hexN l) := by
  unfold tryConvert
  rw [parseIntHex32_digits hne h hlen]
  rfl

/-- `extractRest` when the bracket-trim does not fire. -/
theorem extractRest_no_trim (addr : List Char)
    (hbr : (['['].isPrefixOf addr && List.isSuffixOf [']'] addr) = false) :
    extractRest addr =
      (if containsStr [':'] addr then
        (let parts := splitCC [] addr
         if parts.length > 1 then
           match parts.getLast? with
           | some lastPart =>
             if containsStr [':'] lastPart then
               let hexParts := splitCh ':' lastPart
               if hexParts.length ≥ 2 then
                 if hexParts.length = 2 then
                   twoGroupDecode (hexParts.headD []) ((hexParts.drop 1).headD [])
                 else if hexParts.length ≥ 4 then fourGroupDecode hexParts
                 else []
               else []
             else []
           | none => []
         else [])
      else []) := by
  unfold extractRest
  rw [hbr]
  simp

/-- The decoding pipeline on a compressed two-group tail: for any prefix
`P` free of dots and double colons and not ending in a colon, and
non-empty hex-digit groups `g1`, `g2`, the decoder reaches the two-group
branch with exactly those groups. -/
theorem extractL_compressed (P g1 g2 : List Char)
    (hPdot : '.' ∉ P) (hPdc : hasDCb P = false) (hPlast : P.getLast? ≠ some ':')
    (hg1 : ∀ c ∈ g1, isHexDit c = true) (hg2 : ∀ c ∈ g2, isHexDit c = true)
    (hg1ne : g1 ≠ []) (hg2ne : g2 ≠ []) :
    extractL (P ++ ':' :: ':' :: (g1 ++ ':' :: g2)) = twoGroupDecode g1 g2 := by
  have hg1c : ∀ c ∈ g1, c ≠ ':' := fun c hc => (hexDit_ne_of c (hg1 c hc)).1
  have hg2c : ∀ c ∈ g2, c ≠ ':' := fun c hc => (hexDit_ne_of c (hg2 c hc)).1
  have hg1d : ∀ c ∈ g1, c ≠ '.' := fun c hc => (hexDit_ne_of c (hg1 c hc)).2.1
  have hg2d : ∀ c ∈ g2, c ≠ '.' := fun c hc => (hexDit_ne_of c (hg2 c hc)).2.1
  set T := g1 ++ ':' :: g2 with hT
  set addr := P ++ ':' :: ':' :: T with haddr
  have hTdc : hasDCb T = false := by
    rw [hT]
    exact hasDCb_sep g1 g2 hg1c hg2c hg1ne
  have hdotAddr : '.' ∉ addr := by
    rw [haddr]
    intro hm
    rcases List.mem_append.mp hm with hm | hm
    · exact hPdot hm
    · rcases List.mem_cons.mp hm with hm | hm
      · exact absurd hm (by decide)
      · rcases List.mem_cons.mp hm with hm | hm
        · exact absurd hm (by decide)
        · rw [hT] at hm
          rcases List.mem_append.mp hm with hm | hm
          · exact hg1d '.' hm rfl
          · rcases List.mem_cons.mp hm with hm | hm
            · exact absurd hm (by decide)
            · exact hg2d '.' hm rfl
  have hcolonAddr : ':' ∈ addr := by
    rw [haddr]
    exact List.mem_append.mpr (Or.inr (List.mem_cons_self _ _))
  obtain ⟨z, hz⟩ : ∃ z, g2.getLast? = some z := by
    cases g2 with
    | nil => exact absurd rfl hg2ne
    | cons x xs => exact ⟨_, List.getLast?_eq_getLast (x :: xs) (by simp)⟩
  have hzhex := hexDit_ne_of z (hg2 z (mem_of_getLastQ hz))
  have hlastAddr : addr.getLast? = some z := by
    rw [haddr, List.getLast?_append_of_ne_nil _ (by simp), List.getLast?_cons_cons, hT,
      show (':' :: (g1 ++ ':' :: g2)) = ([':'] ++ g1) ++ ':' :: g2 by simp,
      List.getLast?_append_of_ne_nil _ (by simp),
      show (':' :: g2) = [':'] ++ g2 from rfl,
      List.getLast?_append_of_ne_nil _ hg2ne]
    exact hz
  have hsuf : List.isSuffixOf [']'] addr = false :=
    isSuffixOf_single_false hlastAddr hzhex.2.2.1
  have hstep1 : extractL addr = extractRest addr := by
    unfold extractL
    rw [containsStr_single_false '.' hdotAddr, Bool.and_false]
    rfl
  have hbr : (['['].isPrefixOf addr && List.isSuffixOf [']'] addr) = false := by
    rw [hsuf, Bool.and_false]
  have hparts : splitCC [] addr = [P, T] := by
    rw [haddr, splitCC_through P hPdc hPlast [] T, splitCC_noDC T hTdc []]
    simp
  have hcolonT : ':' ∈ T := by
    rw [hT]
    exact List.mem_append.mpr (Or.inr (List.mem_cons_self _ _))
  have hsplitT : splitCh ':' T = [g1, g2] := by
    rw [hT]
    exact splitCh_two_fields g1 g2 hg1c hg2c
  rw [hstep1, extractRest_no_trim addr hbr, containsStr_single_true ':' hcolonAddr]
  simp only [if_true]
  simp only [hparts]
  have hlen2 : ([P, T] : List (List Char)).length > 1 := by simp
  rw [if_pos hlen2]
  have hgl : ([P, T] : List (List Char)).getLast? = some T := by simp
  simp only [hgl]
  rw [containsStr_single_true ':' hcolonT]
  simp only [if_true, hsplitT]
  simp

/-- The two-group branch on a one-digit second group: octet three is the
literal `0`, octet four the digit's value. -/
theorem twoGroupDecode_width1 (d1 d2 d3 d4 e1 : Char)
    (h1 : isHexDit d1 = true) (h2 : isHexDit d2 = true) (h3 : isHexDit d3 = true)
    (h4 : isHexDit d4 = true) (he1 : isHexDit e1 = true) :
    twoGroupDecode [d1, d2, d3, d4] [e1] =
      decRepr (hexN [d1, d2]) ++ '.' :: decRepr (hexN [d3, d4]) ++ '.' ::
        decRepr 0 ++ '.' :: decRepr (hexN [e1]) := by
  have hd12 : ∀ c ∈ ([d1, d2] : List Char), isHexDit c = true := by
    intro c hc
    rcases List.mem_cons.mp hc with rfl | hc
    · exact h1
    rcases List.mem_cons.mp hc with rfl | hc
    · exact h2
    simp at hc
  have hd34 : ∀ c ∈ ([d3, d4] : List Char), isHexDit c = true := by
    intro c hc
    rcases List.mem_cons.mp hc with rfl | hc
    · exact h3
    rcases List.mem_cons.mp hc with rfl | hc
    · exact h4
    simp at hc
  have he : ∀ c ∈ ([e1] : List Char), isHexDit c = true := by
    intro c hc
    rcases List.mem_cons.mp hc with rfl | hc
    · exact he1
    simp at hc
  unfold twoGroupDecode
  rw [if_pos (by simp)]
  dsimp only
  rw [if_pos (show ([e1] : List Char).length = 1 from rfl)]
  dsimp only
  rw [show ([d1, d2, d3, d4] : List Char).take 2 = [d1, d2] from rfl,
    show ([d1, d2, d3, d4] : List Char).drop 2 = [d3, d4] from rfl,
    tryConvert_digits (by simp) hd12 (by simp),
    tryConvert_digits (by simp) hd34 (by simp),
    tryConvert_digits (by simp) he (by simp),
    show (decRepr 0 : List Char) = ['0'] from by decide]

/-- The two-group branch on a two-digit second group: the two digits are
decoded *individually* (not as the padded byte pair). -/
theorem twoGroupDecode_width2 (d1 d2 d3 d4 e1 e2 : Char)
    (h1 : isHexDit d1 = true) (h2 : isHexDit d2 = true) (h3 : isHexDit d3 = true)
    (h4 : isHexDit d4 = true) (he1 : isHexDit e1 = true) (he2 : isHexDit e2 = true) :
    twoGroupDecode [d1, d2, d3, d4] [e1, e2] =
      decRepr (hexN [d1, d2]) ++ '.' :: decRepr (hexN [d3, d4]) ++ '.' ::
        decRepr (hexN [e1]) ++ '.' :: decRepr (hexN [e2]) := by
  have hd12 : ∀ c ∈ ([d1, d2] : List Char), isHexDit c = true := by
    intro c hc
    rcases List.mem_cons.mp hc with rfl | hc
    · exact h1
    rcases List.mem_cons.mp hc with rfl | hc
    · exact h2
    simp at hc
  have hd34 : ∀ c ∈ ([d3, d4] : List Char), isHexDit c = true := by
    intro c hc
    rcases List.mem_cons.mp hc with rfl | hc
    · exact h3
    rcases List.mem_cons.mp hc with rfl | hc
    · exact h4
    simp at hc
  have hea : ∀ c ∈ ([e1] : List Char), isHexDit c = true := by
    intro c hc
    rcases List.mem_cons.mp hc with rfl | hc
    · exact he1
    simp at hc
  have heb : ∀ c ∈ ([e2] : List Char), isHexDit c = true := by
    intro c hc
    rcases List.mem_cons.mp hc with rfl | hc
    · exact he2
    simp at hc
  unfold twoGroupDecode
  rw [if_pos (by simp)]
  dsimp only
  rw [if_neg (by simp), if_pos (show ([e1, e2] : List Char).length = 2 from rfl)]
  dsimp only
  rw [show ([d1, d2, d3, d4] : List Char).take 2 = [d1, d2] from rfl,
    show ([d1, d2, d3, d4] : List Char).drop 2 = [d3, d4] from rfl,
    show ([e1, e2] : List Char).take 1 = [e1] from rfl,
    show ([e1, e2] : List Char).drop 1 = [e2] from rfl,
    tryConvert_digits (by simp) hd12 (by simp),
    tryConvert_digits (by simp) hd34 (by simp),
    tryConvert_digits (by simp) hea (by simp),
    tryConvert_digits (by simp) heb (by simp)]

/-- The two-group branch on a three-digit second group: first digit, then
the remaining two digits as one byte. -/
theorem twoGroupDecode_width3 (d1 d2 d3 d4 e1 e2 e3 : Char)
    (h1 : isHexDit d1 = true) (h2 : isHexDit d2 = true) (h3 : isHexDit d3 = true)
    (h4 : isHexDit d4 = true) (he1 : isHexDit e1 = true) (he2 : isHexDit e2 = true)
    (he3 : isHexDit e3 = true) :
    twoGroupDecode [d1, d2, d3, d4] [e1, e2, e3] =
      decRepr (hexN [d1, d2]) ++ '.' :: decRepr (hexN [d3, d4]) ++ '.' ::
        decRepr (hexN [e1]) ++ '.' :: decRepr (hexN [e2, e3]) := by
  have hd12 : ∀ c ∈ ([d1, d2] : List Char), isHexDit c = true := by
    intro c hc
    rcases List.mem_cons.mp hc with rfl | hc
    · exact h1
    rcases List.mem_cons.mp hc with rfl | hc
    · exact h2
    simp at hc
  have hd34 : ∀ c ∈ ([d3, d4] : List Char), isHexDit c = true := by
    intro c hc
    rcases List.mem_cons.mp hc with rfl | hc
    · exact h3
    rcases List.mem_cons.mp hc with rfl | hc
    · exact h4
    simp at hc
  have hea : ∀ c ∈ ([e1] : List Char), isHexDit c = true := by
    intro c hc
    rcases List.mem_cons.mp hc with rfl | hc
    · exact he1
    simp at hc
  have heb : ∀ c ∈ ([e2, e3] : List Char), isHexDit c = true := by
    intro c hc
    rcases List.mem_cons.mp hc with rfl | hc
    · exact he2
    rcases List.mem_cons.mp hc with rfl | hc
    · exact he3
    simp at hc
  unfold twoGroupDecode
  rw [if_pos (by simp)]
  dsimp only
  rw [if_neg (by simp), if_neg (by simp),
    if_pos (show ([e1, e2, e3] : List Char).length = 3 from rfl)]
  dsimp only
  rw [show ([d1, d2, d3, d4] : List Char).take 2 = [d1, d2] from rfl,
    show ([d1, d2, d3, d4] : List Char).drop 2 = [d3, d4] from rfl,
    show ([e1, e2, e3] : List Char).take 1 = [e1] from rfl,
    show ([e1, e2, e3] : List Char).drop 1 = [e2, e3] from rfl,
    tryConvert_digits (by simp) hd12 (by simp),
    tryConvert_digits (by simp) hd34 (by simp),
    tryConvert_digits (by simp) hea (by simp),
    tryConvert_digits (by simp) heb (by simp)]

/-- The two-group branch on a four-digit second group: the two byte
pairs. -/
theorem twoGroupDecode_width4 (d1 d2 d3 d4 e1 e2 e3 e4 : Char)
    (h1 : isHexDit d1 = true) (h2 : isHexDit d2 = true) (h3 : isHexDit d3 = true)
    (h4 : isHexDit d4 = true) (he1 : isHexDit e1 = true) (he2 : isHexDit e2 = true)
    (he3 : isHexDit e3 = true) (he4 : isHexDit e4 = true) :
    twoGroupDecode [d1, d2, d3, d4] [e1, e2, e3, e4] =
      decRepr (hexN [d1, d2]) ++ '.' :: decRepr (hexN [d3, d4]) ++ '.' ::
        decRepr (hexN [e1, e2]) ++ '.' :: decRepr (hexN [e3, e4]) := by
  have hd12 : ∀ c ∈ ([d1, d2] : List Char), isHexDit c = true := by
    intro c hc
    rcases List.mem_cons.mp hc with rfl | hc
    · exact h1
    rcases List.mem_cons.mp hc with rfl | hc
    · exact h2
    simp at hc
  have hd34 : ∀ c ∈ ([d3, d4] : List Char), isHexDit c = true := by
    intro c hc
    rcases List.mem_cons.mp hc with rfl | hc
    · exact h3
    rcases List.mem_cons.mp hc with rfl | hc
    · exact h4
    simp at hc
  have hea : ∀ c ∈ ([e1, e2] : List Char), isHexDit c = true := by
    intro c hc
    rcases List.mem_cons.mp hc with rfl | hc
    · exact he1
    rcases List.mem_cons.mp hc with rfl | hc
    · exact he2
    simp at hc
  have heb : ∀ c ∈ ([e3, e4] : List Char), isHexDit c = true := by
    intro c hc
    rcases List.mem_cons.mp hc with rfl | hc
    · exact he3
    rcases List.mem_cons.mp hc with rfl | hc
    · exact he4
    simp at hc
  unfold twoGroupDecode
  rw [if_pos (by simp)]
  dsimp only
  rw [if_neg (by simp), if_neg (by simp), if_neg (by simp)]
  dsimp only
  rw [show ([d1, d2, d3, d4] : List Char).take 2 = [d1, d2] from rfl,
    show ([d1, d2, d3, d4] : List Char).drop 2 = [d3, d4] from rfl,
    show ([e1, e2, e3, e4] : List Char).take 2 = [e1, e2] from rfl,
    show ([e1, e2, e3, e4] : List Char).drop 2 = [e3, e4] from rfl,
    tryConvert_digits (by simp) hd12 (by simp),
    tryConvert_digits (by simp) hd34 (by simp),
    tryConvert_digits (by simp) hea (by simp),
    tryConvert_digits (by simp) heb (by simp)]

/-- C2 (amended): on a compressed address `P::g1:g2` with `P` free of
dots and double colons and not ending in a colon, `g1` four hex digits
and `g2` one to four hex digits, `extractIPv4FromIPv6` returns the
dotted quad whose first two octets are the bytes of `g1` and whose last
two octets depend on the width of `g2`: width 1 gives `0` and the
digit's value; width 2 decodes the two digits *individually* (not the
padded byte pair the claim states); width 3 gives the first digit and
the last two digits as a byte; width 4 gives the two byte pairs.
Finally, a tail of four or more hex groups does not return empty but the
dotted join of its first four groups. -/
theorem C2_extract_amended :
    (∀ (P : List Char) (d1 d2 d3 d4 e1 : Char),
      '.' ∉ P → hasDCb P = false → P.getLast? ≠ some ':' →
      isHexDit d1 = true → isHexDit d2 = true → isHexDit d3 = true →
      isHexDit d4 = true → isHexDit e1 = true →
      extractIPv4FromIPv6 (String.mk (P ++ ':' :: ':' :: ([d1, d2, d3, d4] ++ ':' :: [e1]))) =
        String.mk (decRepr (hexN [d1, d2]) ++ '.' :: decRepr (hexN [d3, d4]) ++ '.' ::
          decRepr 0 ++ '.' :: decRepr (hexN [e1]))) ∧
    (∀ (P : List Char) (d1 d2 d3 d4 e1 e2 : Char),
      '.' ∉ P → hasDCb P = false → P.getLast? ≠ some ':' →
      isHexDit d1 = true → isHexDit d2 = true → isHexDit d3 = true →
      isHexDit d4 = true → isHexDit e1 = true → isHexDit e2 = true →
      extractIPv4FromIPv6
          (String.mk (P ++ ':' :: ':' :: ([d1, d2, d3, d4] ++ ':' :: [e1, e2]))) =
        String.mk (decRepr (hexN [d1, d2]) ++ '.' :: decRepr (hexN [d3, d4]) ++ '.' ::
          decRepr (hexN [e1]) ++ '.' :: decRepr (hexN [e2]))) ∧
    (∀ (P : List Char) (d1 d2 d3 d4 e1 e2 e3 : Char),
      '.' ∉ P → hasDCb P = false → P.getLast? ≠ some ':' →
      isHexDit d1 = true → isHexDit d2 = true → isHexDit d3 = true →
      isHexDit d4 = true → isHexDit e1 = true → isHexDit e2 = true →
      isHexDit e3 = true →
      extractIPv4FromIPv6
          (String.mk (P ++ ':' :: ':' :: ([d1, d2, d3, d4] ++ ':' :: [e1, e2, e3]))) =
        String.mk (decRepr (hexN [d1, d2]) ++ '.' :: decRepr (hexN [d3, d4]) ++ '.' ::
          decRepr (hexN [e1]) ++ '.' :: decRepr (hexN [e2, e3]))) ∧
    (∀ (P : List Char) (d1 d2 d3 d4 e1 e2 e3 e4 : Char),
      '.' ∉ P → hasDCb P = false → P.getLast? ≠ some ':' →
      isHexDit d1 = true → isHexDit d2 = true → isHexDit d3 = true →
      isHexDit d4 = true → isHexDit e1 = true → isHexDit e2 = true →
      isHexDit e3 = true → isHexDit e4 = true →
      extractIPv4FromIPv6
          (String.mk (P ++ ':' :: ':' :: ([d1, d2, d3, d4] ++ ':' :: [e1, e2, e3, e4]))) =
        String.mk (decRepr (hexN [d1, d2]) ++ '.' :: decRepr (hexN [d3, d4]) ++ '.' ::
          decRepr (hexN [e1, e2]) ++ '.' :: decRepr (hexN [e3, e4]))) ∧
    extractIPv4FromIPv6 "64:ff9b:1111::1:2:3:4" = "1.2.3.4" := by
  have hfour : ∀ (c : Char), isHexDit c = true → ∀ (d : Char), isHexDit d = true →
      ∀ (e : Char), isHexDit e = true → ∀ (f : Char), isHexDit f = true →
      ∀ x ∈ ([c, d, e, f] : List Char), isHexDit x = true := by
    intro c hc d hd e he f hf x hx
    rcases List.mem_cons.mp hx with rfl | hx
    · exact hc
    rcases List.mem_cons.mp hx with rfl | hx
    · exact hd
    rcases List.mem_cons.mp hx with rfl | hx
    · exact he
    rcases List.mem_cons.mp hx with rfl | hx
    · exact hf
    simp at hx
  refine ⟨?_, ?_, ?_, ?_, by decide⟩
  · intro P d1 d2 d3 d4 e1 hPd hPdc hPl h1 h2 h3 h4 he1
    show String.mk (extractL _) = _
    rw [show (String.mk (P ++ ':' :: ':' :: ([d1, d2, d3, d4] ++ ':' :: [e1]))).data =
      P ++ ':' :: ':' :: ([d1, d2, d3, d4] ++ ':' :: [e1]) from rfl]
    rw [extractL_compressed P [d1, d2, d3, d4] [e1] hPd hPdc hPl
      (hfour d1 h1 d2 h2 d3 h3 d4 h4) (fun c hc => by
        rcases List.mem_cons.mp hc with rfl | hc
        · exact he1
        · simp at hc) (by simp) (by simp)]
    rw [twoGroupDecode_width1 d1 d2 d3 d4 e1 h1 h2 h3 h4 he1]
  · intro P d1 d2 d3 d4 e1 e2 hPd hPdc hPl h1 h2 h3 h4 he1 he2
    show String.mk (extractL _) = _
    rw [show (String.mk (P ++ ':' :: ':' :: ([d1, d2, d3, d4] ++ ':' :: [e1, e2]))).data =
      P ++ ':' :: ':' :: ([d1, d2, d3, d4] ++ ':' :: [e1, e2]) from rfl]
    rw [extractL_compressed P [d1, d2, d3, d4] [e1, e2] hPd hPdc hPl
      (hfour d1 h1 d2 h2 d3 h3 d4 h4) (fun c hc => by
        rcases List.mem_cons.mp hc with rfl | hc
        · exact he1
        rcases List.mem_cons.mp hc with rfl | hc
        · exact he2
        simp at hc) (by simp) (by simp)]
    rw [twoGroupDecode_width2 d1 d2 d3 d4 e1 e2 h1 h2 h3 h4 he1 he2]
  · intro P d1 d2 d3 d4 e1 e2 e3 hPd hPdc hPl h1 h2 h3 h4 he1 he2 he3
    show String.mk (extractL _) = _
    rw [show (String.mk (P ++ ':' :: ':' :: ([d1, d2, d3, d4] ++ ':' :: [e1, e2, e3]))).data =
      P ++ ':' :: ':' :: ([d1, d2, d3, d4] ++ ':' :: [e1, e2, e3]) from rfl]
    rw [extractL_compressed P [d1, d2, d3, d4] [e1, e2, e3] hPd hPdc hPl
      (hfour d1 h1 d2 h2 d3 h3 d4 h4) (fun c hc => by
        rcases List.mem_cons.mp hc with rfl | hc
        · exact he1
        rcases List.mem_cons.mp hc with rfl | hc
        · exact he2
        rcases List.mem_cons.mp hc with rfl | hc
        · exact he3
        simp at hc) (by simp) (by simp)]
    rw [twoGroupDecode_width3 d1 d2 d3 d4 e1 e2 e3 h1 h2 h3 h4 he1 he2 he3]
  · intro P d1 d2 d3 d4 e1 e2 e3 e4 hPd hPdc hPl h1 h2 h3 h4 he1 he2 he3 he4
    show String.mk (extractL _) = _
    rw [show (String.mk
        (P ++ ':' :: ':' :: ([d1, d2, d3, d4] ++ ':' :: [e1, e2, e3, e4]))).data =
      P ++ ':' :: ':' :: ([d1, d2, d3, d4] ++ ':' :: [e1, e2, e3, e4]) from rfl]
    rw [extractL_compressed P [d1, d2, d3, d4] [e1, e2, e3, e4] hPd hPdc hPl
      (hfour d1 h1 d2 h2 d3 h3 d4 h4) (hfour e1 he1 e2 he2 e3 he3 e4 he4)
      (by simp) (by simp)]
    rw [twoGroupDecode_width4 d1 d2 d3 d4 e1 e2 e3 e4 h1 h2 h3 h4 he1 he2 he3 he4]

/-- C2 amended, witnessed at the test vector `64:ff9b:1111::c0a8:164`
(width-3 second group), which decodes to `192.168.1.100`. -/
theorem C2_extract_amended_witness :
    ('.' ∉ ("64:ff9b:1111" : String).data) ∧
    extractIPv4FromIPv6 "64:ff9b:1111::c0a8:164" = "192.168.1.100" := by
  constructor
  · decide
  · have h := C2_extract_amended.2.2.1 ("64:ff9b:1111" : String).data
      'c' '0' 'a' '8' '1' '6' '4' (by decide) (by decide) (by decide) (by decide)
      (by decide) (by decide) (by decide) (by decide) (by decide) (by decide)
    rw [show String.mk (("64:ff9b:1111" : String).data ++ ':' :: ':' ::
        (['c', '0', 'a', '8'] ++ ':' :: ['1', '6', '4'])) =
      "64:ff9b:1111::c0a8:164" from by decide] at h
    rw [show String.mk (decRepr (hexN ['c', '0']) ++ '.' :: decRepr (hexN ['a', '8']) ++ '.' ::
        decRepr (hexN ['1']) ++ '.' :: decRepr (hexN ['6', '4'])) =
      "192.168.1.100" from by decide] at h
    exact h
